import Mathlib

/-!
# Verification of the shift auto-assignment engine of `app.py`

This file gives a shallow embedding of the scheduling core of the
repository's single source file `app.py` (the function
`auto_assign_shifts_for_month` and the helpers it uses), and proves the
specified properties about it.

Conventions of the embedding:

* Python `datetime.date` values are modelled by the `Date` structure with the
  proleptic Gregorian calendar; `Date.weekday` reproduces
  `datetime.date.weekday()` (Monday = 0 … Sunday = 6).
* pandas data frames are modelled by lists of records.  Cells that the code
  pushes through `_to_int_safe` / `int(...)`-with-`except` are modelled as
  `Option Int` (`none` = NaN / missing / not convertible).
* Python dict comprehensions keyed by `staff_id` keep the *last* row for a
  duplicated key, hence the `List.reverse.find?` lookups below.
* `list.sort(key=...)` is Python's stable sort ordered by the key tuple; it is
  modelled by the stable insertion sort `stableSortBy` below together with the
  boolean key comparison extracted from the `key=lambda` of the source.
* The source calls a function `get_jp_holiday_name` that is not defined
  anywhere in `app.py`; following the specification, which lists the public
  holiday lookup among the engine's inputs, it is passed to the embedding as
  the explicit argument `hol : Date → Option String` (see `name_resolves`
  below for the formalisation of the missing binding itself).
-/

/-! ## Calendar (`date_range_for_month`, `is_weekend`, `strftime`) -/

/-- A proleptic Gregorian calendar date, as `datetime.date`. -/
structure Date where
  year : Nat
  month : Nat
  day : Nat
deriving DecidableEq, Repr

/-- Gregorian leap-year test (`calendar.isleap`). -/
def isLeapYear (y : Nat) : Bool :=
  (y % 4 == 0 && y % 100 != 0) || (y % 400 == 0)

/-- Number of days of a month (`calendar.monthrange(year, month)[1]`);
`0` for an out-of-range month number. -/
def monthLength (y m : Nat) : Nat :=
  match m with
  | 1 => 31
  | 2 => if isLeapYear y then 29 else 28
  | 3 => 31
  | 4 => 30
  | 5 => 31
  | 6 => 30
  | 7 => 31
  | 8 => 31
  | 9 => 30
  | 10 => 31
  | 11 => 30
  | 12 => 31
  | _ => 0

/-- `date_range_for_month(year, month)` of `app.py`: the ordered list of all
dates of the month. -/
def date_range_for_month (year month : Nat) : List Date :=
  (List.range (monthLength year month)).map (fun i => ⟨year, month, i + 1⟩)

/-- Days before year `y` in the proleptic Gregorian calendar
(`datetime.date.toordinal` helper). -/
def daysBeforeYear (y : Nat) : Nat :=
  365 * (y - 1) + (y - 1) / 4 - (y - 1) / 100 + (y - 1) / 400

/-- Days in year `y` before month `m`. -/
def daysBeforeMonth (y m : Nat) : Nat :=
  (List.range (m - 1)).foldl (fun a i => a + monthLength y (i + 1)) 0

/-- `datetime.date.toordinal()`: day 1 is 0001-01-01. -/
def Date.toOrdinal (d : Date) : Nat :=
  daysBeforeYear d.year + daysBeforeMonth d.year d.month + d.day

/-- `datetime.date.weekday()`: Monday = 0 … Sunday = 6
(0001-01-01 is a Monday). -/
def Date.weekday (d : Date) : Nat :=
  (d.toOrdinal + 6) % 7

/-- `is_weekend` of `app.py`: Friday (4), Saturday (5) and Sunday (6) count as
weekend. -/
def is_weekend (d : Date) : Bool :=
  d.weekday ≥ 4

/-- Zero-padding to two digits (`%m` / `%d` of `strftime`). -/
def pad2 (n : Nat) : String :=
  if n < 10 then "0" ++ toString n else toString n

/-- Zero-padding to four digits (`%Y` of `strftime`). -/
def pad4 (n : Nat) : String :=
  if n < 10 then "000" ++ toString n
  else if n < 100 then "00" ++ toString n
  else if n < 1000 then "0" ++ toString n
  else toString n

/-- `d.strftime("%Y-%m-%d")`. -/
def dateStr (d : Date) : String :=
  pad4 d.year ++ "-" ++ pad2 d.month ++ "-" ++ pad2 d.day

/-! ## Input records -/

/-- One row of the staff master data frame `STAFF_DF`; only the columns the
engine reads are modelled.  `dayoff1`, `dayoff2` and
`desired_shifts_per_month` are `Option Int`: `none` stands for a NaN /
missing / non-convertible cell (the source guards every read with
`pd.isna` / `try: int(...) except: …` / `_to_int_safe`). -/
structure Staff where
  staff_id : String
  role : String
  position : String
  dayoff1 : Option Int
  dayoff2 : Option Int
  desired_shifts_per_month : Option Int
deriving DecidableEq, Repr

/-- One row of the shift-request data frame (`requests_df`).  The engine
reads only `date`, `staff_id` and `request_type`; the requested time window
and note are carried along untouched. -/
structure RequestRow where
  date : String
  staff_id : String
  request_type : String
  start_time : String
  end_time : String
  note : String
deriving DecidableEq, Repr

/-- One row of a shift data frame (`existing_shifts_df` and the engine's
output rows). -/
structure ShiftRow where
  date : String
  staff_id : String
  start_time : String
  end_time : String
  source : String
deriving DecidableEq, Repr

/-- `DEFAULT_OPEN_TIME` of `app.py`. -/
def DEFAULT_OPEN_TIME : String := "17:00"

/-- `DEFAULT_CLOSE_TIME` of `app.py`. -/
def DEFAULT_CLOSE_TIME : String := "24:00"

/-- `WEEKDAY_REQUIRED_STAFF` of `app.py`. -/
def WEEKDAY_REQUIRED_STAFF : Nat := 5

/-- `WEEKEND_REQUIRED_STAFF` of `app.py`. -/
def WEEKEND_REQUIRED_STAFF : Nat := 6

/-! ## Availability sets (`req_by_date`) -/

/-- The `"希望"` (Desired) set of `req_by_date` for a date key: staff ids of
the request rows of type `希望` with that date. -/
def hope_set_for (requests : List RequestRow) (day_str : String) : List String :=
  (requests.filter (fun r => r.request_type == "希望" && r.date == day_str)).map
    (fun r => r.staff_id)

/-- The `"NG"` (Blocked) set of `req_by_date` for a date key. -/
def ng_set_for (requests : List RequestRow) (day_str : String) : List String :=
  (requests.filter (fun r => r.request_type == "NG" && r.date == day_str)).map
    (fun r => r.staff_id)

/-! ## Roster-derived maps -/

/-- `employees`: ids of the rows of `STAFF_DF` with role `社員` (Core). -/
def employeeIds (staff : List Staff) : List String :=
  (staff.filter (fun s => s.role == "社員")).map (fun s => s.staff_id)

/-- `parttimers`: ids of the rows with role `アルバイト` (Flexible). -/
def parttimerIds (staff : List Staff) : List String :=
  (staff.filter (fun s => s.role == "アルバイト")).map (fun s => s.staff_id)

/-- `position_map` with its `.get(sid, "")` read: position of the last staff
row with the given id (Python dict comprehensions keep the last duplicate). -/
def position_map (staff : List Staff) (sid : String) : String :=
  ((staff.reverse.find? (fun s => s.staff_id == sid)).map (fun s => s.position)).getD ""

/-- The set (as a list) of fixed days off of one employee row: `dayoff1` /
`dayoff2` cells that are present, convertible and in `0..6`. -/
def staffDayoffs (s : Staff) : List Nat :=
  (match s.dayoff1 with
   | some w => if 0 ≤ w ∧ w ≤ 6 then [w.toNat] else []
   | none => []) ++
  (match s.dayoff2 with
   | some w => if 0 ≤ w ∧ w ≤ 6 then [w.toNat] else []
   | none => [])

/-- `employee_dayoff_map` with its `.get(sid, set())` read: built only from
rows with role `社員`, last duplicate wins. -/
def employee_dayoff_map (staff : List Staff) (sid : String) : List Nat :=
  ((((staff.filter (fun s => s.role == "社員")).reverse.find?
      (fun s => s.staff_id == sid)).map staffDayoffs)).getD []

/-- `max_shifts_per_person` with its `.get(sid, 0)` read: the
`desired_shifts_per_month` cell through `_to_int_safe(·, 0)` (the staff
master is always loaded with the full `STAFF_COLUMNS` schema, so the
`desired_shifts_per_month` branch of the source is the live one); `0`
for an id that has no staff row. -/
def max_shifts_per_person (staff : List Staff) (sid : String) : Int :=
  ((staff.reverse.find? (fun s => s.staff_id == sid)).map
    (fun s => s.desired_shifts_per_month.getD 0)).getD 0

/-- Ids of all staff rows (`max_shifts_per_person.keys()`). -/
def staffIds (staff : List Staff) : List String :=
  staff.map (fun s => s.staff_id)

/-- Number of rows of a shift data frame carrying the given staff id. -/
def countRowsFor (rows : List ShiftRow) (sid : String) : Nat :=
  (rows.filter (fun r => r.staff_id == sid)).length

/-- The initial `assigned_count`: `0` for every staff id, then one per row of
`existing_shifts_df` whose id is a staff id. -/
def initialCount (staff : List Staff) (existing : List ShiftRow) (sid : String) : Nat :=
  if (staffIds staff).contains sid then countRowsFor existing sid else 0

/-- The staff ids of the rows of a shift data frame with the given date
(`df[df["date"] == day_str]["staff_id"]`). -/
def todaysIds (rows : List ShiftRow) (day_str : String) : List String :=
  (rows.filter (fun r => r.date == day_str)).map (fun r => r.staff_id)

/-- Number of ids in an assignee list that are employee ids
(`sum(1 for sid in assigned_today if sid in employees)`). -/
def empCountOf (emps : List String) (assigned_today : List String) : Nat :=
  (assigned_today.filter (fun sid => emps.contains sid)).length

/-! ## Venue-specific identities and capability predicates -/

/-- `MANAGER_ID` of `app.py` (店長 宮首). -/
def MANAGER_ID : String := "S001"

/-- `CHEF_ID` of `app.py` (料理長 山田). -/
def CHEF_ID : String := "S002"

/-- `EMP_SATO_ID` of `app.py` (社員 佐藤). -/
def EMP_SATO_ID : String := "S003"

/-- `is_kitchen_capable_for_day(sid, sato_is_off)` of `app.py`. -/
def is_kitchen_capable_for_day (pos_map : String → String) (sid : String)
    (sato_is_off : Bool) : Bool :=
  if sid == EMP_SATO_ID then false
  else if sato_is_off && sid == MANAGER_ID then false
  else
    let pos := pos_map sid
    if pos == "料理長" || pos == "調理場担当" || pos == "オールラウンド" then true
    else if sid == MANAGER_ID then true
    else false

/-- `kitchen_priority_rank(sid)` of `app.py`. -/
def kitchen_priority_rank (pos_map : String → String) (sid : String) : Nat :=
  if sid == CHEF_ID then 0
  else if pos_map sid == "調理場担当" then 1
  else if pos_map sid == "オールラウンド" then 2
  else if sid == MANAGER_ID then 3
  else 9

/-- `counts_for_hall(sid)` of `app.py`. -/
def counts_for_hall (pos_map : String → String) (sid : String) : Bool :=
  !(pos_map sid == "調理場担当")

/-! ## Stable sorting (Python `list.sort(key=...)`)

Python's `list.sort` is a stable sort by the key tuple; any stable sort
ordered by the same total preorder computes the same list, so it is embedded
as a stable insertion sort. -/

/-- Insert `a` into `l` before the first element `b` with `le a b = true`
(so, for a total preorder `le`, after every earlier element strictly below
`a` and before every tied one coming later — the stable position). -/
def insertLE {α : Type} (le : α → α → Bool) (a : α) : List α → List α
  | [] => [a]
  | b :: bs => if le a b then a :: b :: bs else b :: insertLE le a bs

/-- Stable insertion sort by the boolean preorder `le`. -/
def stableSortBy {α : Type} (le : α → α → Bool) : List α → List α
  | [] => []
  | a :: as => insertLE le a (stableSortBy le as)

/-! ## Candidate records and sort keys -/

/-- A candidate dict built by `make_employee_candidates`. -/
structure EmpCand where
  staff_id : String
  is_hope : Bool
  assigned_count : Nat
  remaining_cap : Int
deriving DecidableEq, Repr

/-- A candidate dict built by `make_any_candidates` (the unused `"pos"`
entry of the source dict is dropped). -/
structure AnyCand where
  staff_id : String
  is_employee : Bool
  is_hope : Bool
  assigned_count : Nat
deriving DecidableEq, Repr

/-- `False < True` of Python booleans inside a sort key, as a `Nat`. -/
def boolKey (b : Bool) : Nat := if b then 1 else 0

/-- Lexicographic `≤` on a `(Nat, Int, Nat, String)` Python key tuple. -/
def keyLE4I (a b : Nat × Int × Nat × String) : Bool :=
  if a.1 ≠ b.1 then a.1 < b.1
  else if a.2.1 ≠ b.2.1 then a.2.1 < b.2.1
  else if a.2.2.1 ≠ b.2.2.1 then a.2.2.1 < b.2.2.1
  else !(b.2.2.2 < a.2.2.2)

/-- Lexicographic `≤` on a `(Nat, Nat, Nat, String)` Python key tuple. -/
def keyLE4N (a b : Nat × Nat × Nat × String) : Bool :=
  if a.1 ≠ b.1 then a.1 < b.1
  else if a.2.1 ≠ b.2.1 then a.2.1 < b.2.1
  else if a.2.2.1 ≠ b.2.2.1 then a.2.2.1 < b.2.2.1
  else !(b.2.2.2 < a.2.2.2)

/-- The sort key of `make_employee_candidates`:
`(not is_hope, -remaining_cap, assigned_count, staff_id)`. -/
def empCandKey (c : EmpCand) : Nat × Int × Nat × String :=
  (boolKey !c.is_hope, -c.remaining_cap, c.assigned_count, c.staff_id)

/-- Key order of `make_employee_candidates`. -/
def empCandLE (a b : EmpCand) : Bool :=
  keyLE4I (empCandKey a) (empCandKey b)

/-- The sort key of `make_any_candidates` in `kitchen` mode:
`(not is_hope, kitchen_priority_rank(staff_id), assigned_count, staff_id)`. -/
def anyCandKeyKitchen (pos_map : String → String) (c : AnyCand) :
    Nat × Nat × Nat × String :=
  (boolKey !c.is_hope, kitchen_priority_rank pos_map c.staff_id,
   c.assigned_count, c.staff_id)

/-- The sort key of `make_any_candidates` in `hall` and `any` modes:
`(not is_hope, is_employee, assigned_count, staff_id)` — Flexible staff
(`is_employee = False`) rank before Core staff. -/
def anyCandKeyHall (c : AnyCand) : Nat × Nat × Nat × String :=
  (boolKey !c.is_hope, boolKey c.is_employee, c.assigned_count, c.staff_id)

/-- Key order of `make_any_candidates` for the given mode. -/
def anyCandLE (pos_map : String → String) (mode : String) (a b : AnyCand) : Bool :=
  if mode == "kitchen" then
    keyLE4N (anyCandKeyKitchen pos_map a) (anyCandKeyKitchen pos_map b)
  else
    keyLE4N (anyCandKeyHall a) (anyCandKeyHall b)

/-! ## `make_employee_candidates` -/

/-- The per-worker exclusion tests of `make_employee_candidates` (the
`continue`s of its loop): not Blocked today, not already assigned today,
positive remaining monthly capacity, and the date's weekday is not a fixed
day off. -/
def empEligible (max_shifts : String → Int) (dayoff_map : String → List Nat)
    (count : String → Nat) (weekday_idx : Nat)
    (assigned_today hope_ng_set : List String) (sid : String) : Bool :=
  !(hope_ng_set.contains sid) && !(assigned_today.contains sid) &&
  (0 < max_shifts sid - (count sid : Int)) &&
  !((dayoff_map sid).contains weekday_idx)

/-- `make_employee_candidates` of `app.py`: the eligible employees of the
day, as candidate dicts, sorted by `empCandKey`. -/
def make_employee_candidates (emps : List String) (max_shifts : String → Int)
    (dayoff_map : String → List Nat) (count : String → Nat)
    (weekday_idx : Nat) (assigned_today hope_set ng_set : List String) :
    List EmpCand :=
  let cand := emps.filterMap (fun sid =>
    if empEligible max_shifts dayoff_map count weekday_idx assigned_today ng_set sid then
      some ⟨sid, hope_set.contains sid, count sid,
            max_shifts sid - (count sid : Int)⟩
    else none)
  stableSortBy empCandLE cand

/-! ## `make_any_candidates` -/

/-- The mode filter of `make_any_candidates`: `kitchen` keeps only
kitchen-capable workers (with the day's `sato_is_off` flag), `hall` keeps
only hall-countable workers, any other mode keeps everyone. -/
def modeKeeps (pos_map : String → String) (mode : String) (sato_is_off : Bool)
    (sid : String) : Bool :=
  if mode == "kitchen" then is_kitchen_capable_for_day pos_map sid sato_is_off
  else if mode == "hall" then counts_for_hall pos_map sid
  else true

/-- The exclusion tests of `make_any_candidates`: not Blocked, not already
assigned today, monthly count below the cap, and — for employees only — the
weekday is not a fixed day off. -/
def anyEligible (emps : List String) (max_shifts : String → Int)
    (dayoff_map : String → List Nat) (count : String → Nat)
    (weekday_idx : Nat) (assigned_today ng_set : List String) (sid : String) : Bool :=
  !(ng_set.contains sid) && !(assigned_today.contains sid) &&
  !((max_shifts sid) ≤ (count sid : Int)) &&
  !(emps.contains sid && (dayoff_map sid).contains weekday_idx)

/-- `make_any_candidates` of `app.py`: eligible workers among
`employees + parttimers` that pass the mode filter, sorted by the mode's
key. -/
def make_any_candidates (emps pts : List String) (pos_map : String → String)
    (max_shifts : String → Int) (dayoff_map : String → List Nat)
    (count : String → Nat) (weekday_idx : Nat)
    (assigned_today hope_set ng_set : List String)
    (mode : String) (sato_is_off : Bool) : List AnyCand :=
  let cand := (emps ++ pts).filterMap (fun sid =>
    if anyEligible emps max_shifts dayoff_map count weekday_idx assigned_today ng_set sid
        && modeKeeps pos_map mode sato_is_off sid then
      some ⟨sid, emps.contains sid, hope_set.contains sid, count sid⟩
    else none)
  stableSortBy (anyCandLE pos_map mode) cand

/-! ## Engine state and the per-day assignment loops -/

/-- The mutable state of one engine run: the per-worker `assigned_count`
dict (as a total function, reads default to `0`) and the accumulated
`new_shift_rows`. -/
structure EngState where
  count : String → Nat
  new_shift_rows : List ShiftRow

/-- `assigned_count[sid] = assigned_count.get(sid, 0) + 1`. -/
def bumpCount (count : String → Nat) (sid : String) : String → Nat :=
  fun s => if s == sid then count s + 1 else count s

/-- The output row appended for a selection on `day_str`. -/
def autoRow (day_str sid : String) : ShiftRow :=
  ⟨day_str, sid, DEFAULT_OPEN_TIME, DEFAULT_CLOSE_TIME, "auto"⟩

/-- The `for _ in range(need)` loop of `assign_employees_for_day`: take the
head of `make_employee_candidates` and record it, `need` times, stopping
early when no candidate is left. -/
def assignEmpLoop (emps : List String) (max_shifts : String → Int)
    (dayoff_map : String → List Nat) (day_str : String) (weekday_idx : Nat)
    (hope_set ng_set : List String) :
    Nat → List String → EngState → EngState
  | 0, _, st => st
  | n + 1, assigned_today, st =>
    match make_employee_candidates emps max_shifts dayoff_map st.count
        weekday_idx assigned_today hope_set ng_set with
    | [] => st
    | chosen :: _ =>
      assignEmpLoop emps max_shifts dayoff_map day_str weekday_idx hope_set ng_set
        n (assigned_today ++ [chosen.staff_id])
        ⟨bumpCount st.count chosen.staff_id,
         st.new_shift_rows ++ [autoRow day_str chosen.staff_id]⟩

/-- `assign_employees_for_day(d, target_emp)` of `app.py`: bring the date up
to `target_emp` employees, if candidates allow. -/
def assign_employees_for_day (emps : List String) (max_shifts : String → Int)
    (dayoff_map : String → List Nat) (requests : List RequestRow)
    (existing : List ShiftRow) (d : Date) (target_emp : Nat)
    (st : EngState) : EngState :=
  let day_str := dateStr d
  let assigned_today :=
    todaysIds existing day_str ++ todaysIds st.new_shift_rows day_str
  let current_emp := empCountOf emps assigned_today
  let need := target_emp - current_emp
  if need == 0 then st
  else
    assignEmpLoop emps max_shifts dayoff_map day_str d.weekday
      (hope_set_for requests day_str) (ng_set_for requests day_str)
      need assigned_today st

/-- The Phase-1 target (`target_emp=2` at the Phase-1 call site). -/
def PHASE1_TARGET : Nat := 2

/-- The Phase-2 target (`target_emp=3` at the Phase-2 call site). -/
def PHASE2_TARGET : Nat := 3

/-- The Phase-2 date order: all Fridays, then all Saturdays, then all
Sundays, then the Monday–Thursday public holidays (a date counts as a
holiday when the lookup returns a non-empty name, Python truthiness). -/
def premium_dates (hol : Date → Option String) (dates : List Date) : List Date :=
  (dates.filter (fun d => d.weekday == 4)) ++
  (dates.filter (fun d => d.weekday == 5)) ++
  (dates.filter (fun d => d.weekday == 6)) ++
  (dates.filter (fun d => (match hol d with
                           | some s => !(s == "")
                           | none => false) && d.weekday ≤ 3))

/-- `required_staff` of the Phase-3 loop: `WEEKEND_REQUIRED_STAFF` on
weekend days (Friday–Sunday), `WEEKDAY_REQUIRED_STAFF` otherwise. -/
def required_staff_for (d : Date) : Nat :=
  if is_weekend d then WEEKEND_REQUIRED_STAFF else WEEKDAY_REQUIRED_STAFF

/-- The Phase-3 mode choice: `kitchen` while fewer than 2 kitchen-capable
assignees, else `hall` while fewer than 3 hall-countable assignees, else
`any`. -/
def phase3_mode (kitchen_count hall_count : Nat) : String :=
  if 0 < 2 - kitchen_count then "kitchen"
  else if 0 < 3 - hall_count then "hall"
  else "any"

/-- The live kitchen headcount of the Phase-3 loop: assignees that are
kitchen-capable in the pure sense (`sato_is_off=False` at the counting
site). -/
def kitchenCountOf (pos_map : String → String) (assigned_today : List String) : Nat :=
  (assigned_today.filter (fun sid => is_kitchen_capable_for_day pos_map sid false)).length

/-- The live hall headcount of the Phase-3 loop. -/
def hallCountOf (pos_map : String → String) (assigned_today : List String) : Nat :=
  (assigned_today.filter (fun sid => counts_for_hall pos_map sid)).length

/-- The `for _ in range(remaining)` loop of Phase 3: recompute the kitchen /
hall shortfall, pick the mode, take the head of `make_any_candidates`,
stopping early when no candidate is left.  `sato_is_off` was computed once
before the loop and stays fixed. -/
def phase3Loop (emps pts : List String) (pos_map : String → String)
    (max_shifts : String → Int) (dayoff_map : String → List Nat)
    (day_str : String) (weekday_idx : Nat) (hope_set ng_set : List String)
    (sato_is_off : Bool) :
    Nat → List String → EngState → EngState
  | 0, _, st => st
  | n + 1, assigned_today, st =>
    let mode := phase3_mode (kitchenCountOf pos_map assigned_today)
      (hallCountOf pos_map assigned_today)
    match make_any_candidates emps pts pos_map max_shifts dayoff_map st.count
        weekday_idx assigned_today hope_set ng_set mode sato_is_off with
    | [] => st
    | chosen :: _ =>
      phase3Loop emps pts pos_map max_shifts dayoff_map day_str weekday_idx
        hope_set ng_set sato_is_off
        n (assigned_today ++ [chosen.staff_id])
        ⟨bumpCount st.count chosen.staff_id,
         st.new_shift_rows ++ [autoRow day_str chosen.staff_id]⟩

/-- One date of Phase 3.  `combined` is the snapshot
`concat(existing_shifts_df, new_shift_rows)` taken once when Phase 3
starts (the source builds it before the date loop and never refreshes
it). -/
def phase3Day (emps pts : List String) (pos_map : String → String)
    (max_shifts : String → Int) (dayoff_map : String → List Nat)
    (requests : List RequestRow) (combined : List ShiftRow) (d : Date)
    (st : EngState) : EngState :=
  let day_str := dateStr d
  let required_staff := required_staff_for d
  let assigned_today := todaysIds combined day_str
  let remaining := required_staff - assigned_today.length
  if remaining == 0 then st
  else
    let sato_is_off := !(assigned_today.contains EMP_SATO_ID)
    phase3Loop emps pts pos_map max_shifts dayoff_map day_str d.weekday
      (hope_set_for requests day_str) (ng_set_for requests day_str)
      sato_is_off remaining assigned_today st

/-! ## `auto_assign_shifts_for_month` -/

/-- Phase 1 of the engine: every date of the month up to `PHASE1_TARGET`
employees. -/
def phase1Run (emps : List String) (max_shifts : String → Int)
    (dayoff_map : String → List Nat) (requests : List RequestRow)
    (existing : List ShiftRow) (dates : List Date) (st : EngState) : EngState :=
  dates.foldl
    (fun st d => assign_employees_for_day emps max_shifts dayoff_map requests
      existing d PHASE1_TARGET st) st

/-- Phase 2 of the engine: premium days up to `PHASE2_TARGET` employees. -/
def phase2Run (hol : Date → Option String) (emps : List String)
    (max_shifts : String → Int) (dayoff_map : String → List Nat)
    (requests : List RequestRow) (existing : List ShiftRow) (dates : List Date)
    (st : EngState) : EngState :=
  (premium_dates hol dates).foldl
    (fun st d => assign_employees_for_day emps max_shifts dayoff_map requests
      existing d PHASE2_TARGET st) st

/-- Phase 3 of the engine: fill every date up to its required headcount,
working from the snapshot `concat(existing, new_shift_rows)` taken once. -/
def phase3Run (emps pts : List String) (pos_map : String → String)
    (max_shifts : String → Int) (dayoff_map : String → List Nat)
    (requests : List RequestRow) (existing : List ShiftRow) (dates : List Date)
    (st : EngState) : EngState :=
  let combined := existing ++ st.new_shift_rows
  dates.foldl
    (fun st d => phase3Day emps pts pos_map max_shifts dayoff_map requests
      combined d st) st

/-- `auto_assign_shifts_for_month(year, month, requests_df,
existing_shifts_df)` of `app.py`.  `hol` is the public-holiday lookup
(the source's `get_jp_holiday_name`, an input per the specification since
`app.py` never defines it).  The roster `staff` is the module-level
`STAFF_DF`.  Returns the newly proposed rows. -/
def auto_assign_shifts_for_month (hol : Date → Option String)
    (staff : List Staff) (year month : Nat) (requests : List RequestRow)
    (existing : List ShiftRow) : List ShiftRow :=
  let dates := date_range_for_month year month
  let emps := employeeIds staff
  let pts := parttimerIds staff
  let pos_map := position_map staff
  let dayoff_map := employee_dayoff_map staff
  let max_shifts := max_shifts_per_person staff
  let st0 : EngState := ⟨initialCount staff existing, []⟩
  let st1 := phase1Run emps max_shifts dayoff_map requests existing dates st0
  let st2 := phase2Run hol emps max_shifts dayoff_map requests existing dates st1
  let st3 := phase3Run emps pts pos_map max_shifts dayoff_map requests existing
    dates st2
  st3.new_shift_rows

/-! ## Claim-side definitions (for refinement comparisons)

The following definitions follow the wording of the specification / claims,
not the source; each is compared against the source-derived definition
above. -/

/-- The composite ordering key the specification claims for the
core-restricted generic selections of Phases 1 and 2: `(not-desired-today,
employment class with Flexible before Core, current-month assigned count,
worker id)`.  Employee candidates are all Core, so the class component is
the constant `1`. -/
def claimedEmpCandKey (c : EmpCand) : Nat × Nat × Nat × String :=
  (boolKey !c.is_hope, 1, c.assigned_count, c.staff_id)

/-- The kitchen-priority ranking the claim asserts: determined purely by
the worker's capability tag — chef (`料理長`) = 0, kitchen-only
(`調理場担当`) = 1, all-round (`オールラウンド`) = 2, manager-equivalent
(`店長`) = 3, everyone else = 9. -/
def claimedKitchenRankByTag (tag : String) : Nat :=
  if tag == "料理長" then 0
  else if tag == "調理場担当" then 1
  else if tag == "オールラウンド" then 2
  else if tag == "店長" then 3
  else 9

/-! ## Python name-resolution model (for the missing `get_jp_holiday_name`)

`app.py` is the only source file of the repository.  A global name used
inside `auto_assign_shifts_for_month` resolves against the module's
top-level bindings and, failing that, the Python builtins. -/

/-- All names bound at module scope of `app.py`: the `import` aliases, the
top-level constants and `STAFF_DF`/`conn`, and the top-level `def`s, in
source order. -/
def module_top_level_names : List String :=
  ["st", "pd", "dt", "calendar", "Path", "jpholiday", "os", "shutil", "html",
   "GSheetsConnection", "APP_TITLE", "ADMIN_PASSWORD", "DATA_DIR",
   "WEEKDAY_REQUIRED_STAFF", "WEEKEND_REQUIRED_STAFF", "REQUIRED_EMPLOYEES",
   "SHIFT_FILE", "REQUEST_FILE", "TIMECARD_FILE", "MESSAGE_FILE", "STAFF_FILE",
   "DEFAULT_OPEN_TIME", "DEFAULT_CLOSE_TIME", "STAFF_COLUMNS_BASE",
   "STAFF_EXTRA_COLUMNS", "STAFF_COLUMNS", "conn", "load_csv", "save_csv",
   "load_staff_master", "STAFF_DF", "get_staff_name", "get_active_staff_ids",
   "ensure_request_ids", "get_staff_by_name", "get_staff_label",
   "date_range_for_month", "is_weekend", "format_time_str",
   "build_month_calendar_html", "render_month_calendar_with_shifts",
   "get_default_year_month_for_ui", "page_shift_calendar", "page_shift_request",
   "auto_assign_shifts_for_month", "page_auto_scheduler", "page_timecard",
   "page_message_board", "generate_new_staff_id", "page_admin_settings", "main"]

/-- The Python builtins that `auto_assign_shifts_for_month` uses. -/
def python_builtin_names : List String :=
  ["str", "int", "set", "max", "sum", "len", "range", "list", "dict", "Exception"]

/-- Whether a global name used inside `auto_assign_shifts_for_month`
resolves (module scope, then builtins). -/
def name_resolves (n : String) : Bool :=
  module_top_level_names.contains n || python_builtin_names.contains n

/-- The global names referenced by the body of
`auto_assign_shifts_for_month` (hence needed for a run to complete). -/
def auto_assign_global_refs : List String :=
  ["date_range_for_month", "str", "STAFF_DF", "pd", "dt", "int", "set", "max",
   "sum", "len", "range", "DEFAULT_OPEN_TIME", "DEFAULT_CLOSE_TIME",
   "get_jp_holiday_name", "is_weekend", "WEEKEND_REQUIRED_STAFF",
   "WEEKDAY_REQUIRED_STAFF"]

/-- The dates at which Phase 2's holiday list comprehension
`[d for d in dates if get_jp_holiday_name(d) and d.weekday() <= 3]`
applies `get_jp_holiday_name`: every date of the month (the call is
evaluated before the weekday test). -/
def phase2_holiday_scan_dates (year month : Nat) : List Date :=
  date_range_for_month year month

/-! ## Invariant predicates used by the verification -/

/-- One engine state extends another: rows only appended, counts only
grown. -/
def StExt (st st' : EngState) : Prop :=
  (∃ l, st'.new_shift_rows = st.new_shift_rows ++ l) ∧
  ∀ s, st.count s ≤ st'.count s

/-- Shape of every proposed row: default times, `auto` provenance, a worker
of the roster, its date a date of the month, not Blocked that day, and —
for employees — not on a fixed day off. -/
def RowOk (emps pts : List String) (dayoff_map : String → List Nat)
    (requests : List RequestRow) (dates : List Date) (r : ShiftRow) : Prop :=
  r.start_time = DEFAULT_OPEN_TIME ∧ r.end_time = DEFAULT_CLOSE_TIME ∧
  r.source = "auto" ∧ (emps ++ pts).contains r.staff_id = true ∧
  (ng_set_for requests r.date).contains r.staff_id = false ∧
  ∃ d ∈ dates, r.date = dateStr d ∧
    (emps.contains r.staff_id = true →
      (dayoff_map r.staff_id).contains d.weekday = false)

/-- The proposed rows carry pairwise-distinct `(date, staff_id)` pairs and
none collides with a confirmed row. -/
def PairFree (existing rows : List ShiftRow) : Prop :=
  rows.Pairwise (fun a b => ¬(a.date = b.date ∧ a.staff_id = b.staff_id)) ∧
  ∀ r ∈ rows, ∀ e ∈ existing, ¬(r.date = e.date ∧ r.staff_id = e.staff_id)

/-- The running invariant of an engine state. -/
def EngInv (emps pts : List String) (max_shifts : String → Int)
    (dayoff_map : String → List Nat) (init : String → Nat)
    (requests : List RequestRow) (existing : List ShiftRow)
    (dates : List Date) (st : EngState) : Prop :=
  (∀ sid, st.count sid = init sid + countRowsFor st.new_shift_rows sid) ∧
  (∀ sid, (st.count sid : Int) ≤ max (init sid : Int) (max_shifts sid)) ∧
  (∀ r ∈ st.new_shift_rows, RowOk emps pts dayoff_map requests dates r) ∧
  PairFree existing st.new_shift_rows

/-- After a run, a date is *employee-done* for a target: the target is met,
or no eligible employee candidate remains at the final state. -/
def EmpDone (emps : List String) (max_shifts : String → Int)
    (dayoff_map : String → List Nat) (requests : List RequestRow)
    (existing : List ShiftRow) (target : Nat) (d : Date) (st : EngState) : Prop :=
  target ≤ empCountOf emps
      (todaysIds existing (dateStr d) ++ todaysIds st.new_shift_rows (dateStr d)) ∨
  make_employee_candidates emps max_shifts dayoff_map st.count d.weekday
    (todaysIds existing (dateStr d) ++ todaysIds st.new_shift_rows (dateStr d))
    (hope_set_for requests (dateStr d)) (ng_set_for requests (dateStr d)) = []

/-- After a run, a date is *Phase-3-done*: its required headcount is met, or
no eligible candidate remains at the final state for the mode and
`sato_is_off` flag that the final state's assignee list determines. -/
def P3Done (emps pts : List String) (pos_map : String → String)
    (max_shifts : String → Int) (dayoff_map : String → List Nat)
    (requests : List RequestRow) (existing : List ShiftRow) (d : Date)
    (st : EngState) : Prop :=
  required_staff_for d ≤
      (todaysIds existing (dateStr d) ++ todaysIds st.new_shift_rows (dateStr d)).length ∨
  make_any_candidates emps pts pos_map max_shifts dayoff_map st.count d.weekday
    (todaysIds existing (dateStr d) ++ todaysIds st.new_shift_rows (dateStr d))
    (hope_set_for requests (dateStr d)) (ng_set_for requests (dateStr d))
    (phase3_mode
      (kitchenCountOf pos_map
        (todaysIds existing (dateStr d) ++ todaysIds st.new_shift_rows (dateStr d)))
      (hallCountOf pos_map
        (todaysIds existing (dateStr d) ++ todaysIds st.new_shift_rows (dateStr d))))
    (!((todaysIds existing (dateStr d) ++
        todaysIds st.new_shift_rows (dateStr d)).contains EMP_SATO_ID)) = []

/-- The final engine state of one run of `auto_assign_shifts_for_month`
(whose returned data frame is its `new_shift_rows`). -/
def engineFinalState (hol : Date → Option String) (staff : List Staff)
    (year month : Nat) (requests : List RequestRow)
    (existing : List ShiftRow) : EngState :=
  phase3Run (employeeIds staff) (parttimerIds staff) (position_map staff)
    (max_shifts_per_person staff) (employee_dayoff_map staff) requests existing
    (date_range_for_month year month)
    (phase2Run hol (employeeIds staff) (max_shifts_per_person staff)
      (employee_dayoff_map staff) requests existing
      (date_range_for_month year month)
      (phase1Run (employeeIds staff) (max_shifts_per_person staff)
        (employee_dayoff_map staff) requests existing
        (date_range_for_month year month)
        ⟨initialCount staff existing, []⟩))

/-- Two staff rows that may differ only in the day-off cells of a
non-`社員` row (claim: fixed days off never constrain Flexible workers). -/
def SameButDayoffs (s s' : Staff) : Prop :=
  s.staff_id = s'.staff_id ∧ s.role = s'.role ∧ s.position = s'.position ∧
  s.desired_shifts_per_month = s'.desired_shifts_per_month ∧
  (s.role = "社員" → s.dayoff1 = s'.dayoff1 ∧ s.dayoff2 = s'.dayoff2)

/-! ## Concrete data for counterexamples and witnesses -/

/-- The empty public-holiday lookup. -/
def noHoliday : Date → Option String := fun _ => none

/-- One Core worker with monthly cap 2. -/
def exStaffA : List Staff := [⟨"E1", "社員", "", none, none, some 2⟩]

/-- One confirmed manual row for `E1` on 2025-02-01. -/
def exExistingA : List ShiftRow := [⟨"2025-02-01", "E1", "17:00", "24:00", "manual"⟩]

/-- A Blocked (NG) request of `E1` for 2025-02-01. -/
def exRequestsB : List RequestRow := [⟨"2025-02-01", "E1", "NG", "", "", ""⟩]

/-- One Core worker with fixed day off Monday (weekday 0) and cap 2. -/
def exStaffD : List Staff := [⟨"E1", "社員", "", some 0, none, some 2⟩]

/-- One Core worker whose monthly cap is 0. -/
def exStaffCap : List Staff := [⟨"E1", "社員", "", none, none, some 0⟩]

/-- Two Core workers: `E1` has cap 10, `E2` cap 5. -/
def c6staff : List Staff :=
  [⟨"E1", "社員", "", none, none, some 10⟩,
   ⟨"E2", "社員", "", none, none, some 5⟩]

/-- One confirmed row for `E1` on 2025-02-02 (so `E1` starts the run with
assigned count 1 while `E2` starts with 0). -/
def c6existing : List ShiftRow := [⟨"2025-02-02", "E1", "17:00", "24:00", "manual"⟩]

/-- A Flexible worker whose capability tag is chef (`料理長`) but whose id is
not the hardcoded `CHEF_ID`. -/
def c8staff : List Staff := [⟨"S009", "アルバイト", "料理長", none, none, some 10⟩]

/-- The `(Nat, Nat, Nat, String)` key tuple as a lexicographic order value
(for reasoning about `keyLE4N`). -/
def toLexKeyN (k : Nat × Nat × Nat × String) : Nat ×ₗ Nat ×ₗ Nat ×ₗ String :=
  toLex (k.1, toLex (k.2.1, toLex (k.2.2.1, k.2.2.2)))

/-- The `(Nat, Int, Nat, String)` key tuple as a lexicographic order value
(for reasoning about `keyLE4I`). -/
def toLexKeyI (k : Nat × Int × Nat × String) : Nat ×ₗ Int ×ₗ Nat ×ₗ String :=
  toLex (k.1, toLex (k.2.1, toLex (k.2.2.1, k.2.2.2)))

/-! # Theorems

## Stable-sort basics -/

theorem mem_insertLE {α : Type} (le : α → α → Bool) (a : α) (l : List α) (x : α) :
    x ∈ insertLE le a l ↔ x = a ∨ x ∈ l := by
  induction l with
  | nil => simp [insertLE]
  | cons b bs ih =>
    simp only [insertLE]
    split
    · simp [or_comm, or_assoc, or_left_comm]
    · simp [ih, or_comm, or_assoc, or_left_comm]

theorem insertLE_perm {α : Type} (le : α → α → Bool) (a : α) (l : List α) :
    (insertLE le a l).Perm (a :: l) := by
  induction l with
  | nil => simp [insertLE]
  | cons b bs ih =>
    simp only [insertLE]
    split
    · exact List.Perm.refl _
    · exact (List.Perm.cons b ih).trans (List.Perm.swap a b bs)

theorem stableSortBy_perm {α : Type} (le : α → α → Bool) (l : List α) :
    (stableSortBy le l).Perm l := by
  induction l with
  | nil => simp [stableSortBy]
  | cons a as ih =>
    exact (insertLE_perm le a (stableSortBy le as)).trans (List.Perm.cons a ih)

theorem mem_stableSortBy {α : Type} (le : α → α → Bool) (l : List α) (x : α) :
    x ∈ stableSortBy le l ↔ x ∈ l :=
  (stableSortBy_perm le l).mem_iff

theorem stableSortBy_eq_nil_iff {α : Type} (le : α → α → Bool) (l : List α) :
    stableSortBy le l = [] ↔ l = [] := by
  constructor
  · intro h
    have := (stableSortBy_perm le l).length_eq
    rw [h] at this
    exact List.eq_nil_of_length_eq_zero this.symm
  · intro h; subst h; rfl

theorem pairwise_insertLE {α : Type} (le : α → α → Bool)
    (htotal : ∀ a b, le a b = true ∨ le b a = true)
    (htrans : ∀ a b c, le a b = true → le b c = true → le a c = true)
    (a : α) (l : List α) (h : l.Pairwise (fun x y => le x y = true)) :
    (insertLE le a l).Pairwise (fun x y => le x y = true) := by
  induction l with
  | nil => simp [insertLE]
  | cons b bs ih =>
    rcases List.pairwise_cons.mp h with ⟨hb, hbs⟩
    simp only [insertLE]
    split
    · rename_i hab
      refine List.pairwise_cons.mpr ⟨?_, h⟩
      intro x hx
      rcases List.mem_cons.mp hx with rfl | hx
      · exact hab
      · exact htrans a b x hab (hb x hx)
    · rename_i hab
      have hba : le b a = true := by
        rcases htotal a b with h' | h'
        · exact absurd h' hab
        · exact h'
      refine List.pairwise_cons.mpr ⟨?_, ih hbs⟩
      intro x hx
      rcases (mem_insertLE le a bs x).mp hx with rfl | hx
      · exact hba
      · exact hb x hx

theorem pairwise_stableSortBy {α : Type} (le : α → α → Bool)
    (htotal : ∀ a b, le a b = true ∨ le b a = true)
    (htrans : ∀ a b c, le a b = true → le b c = true → le a c = true)
    (l : List α) :
    (stableSortBy le l).Pairwise (fun x y => le x y = true) := by
  induction l with
  | nil => simp [stableSortBy]
  | cons a as ih => exact pairwise_insertLE le htotal htrans a _ ih

/-! ## Key-tuple order lemmas -/

theorem keyLE4N_iff_toLex (a b : Nat × Nat × Nat × String) :
    keyLE4N a b = true ↔ toLexKeyN a ≤ toLexKeyN b := by
  obtain ⟨a1, a2, a3, a4⟩ := a
  obtain ⟨b1, b2, b3, b4⟩ := b
  simp only [toLexKeyN, keyLE4N, Prod.Lex.le_iff]
  by_cases h1 : a1 = b1 <;> by_cases h2 : a2 = b2 <;> by_cases h3 : a3 = b3 <;>
    simp [h1, h2, h3, decide_eq_true_eq, not_lt, le_iff_lt_or_eq, String.ext_iff]

theorem keyLE4I_iff_toLex (a b : Nat × Int × Nat × String) :
    keyLE4I a b = true ↔ toLexKeyI a ≤ toLexKeyI b := by
  obtain ⟨a1, a2, a3, a4⟩ := a
  obtain ⟨b1, b2, b3, b4⟩ := b
  simp only [toLexKeyI, keyLE4I, Prod.Lex.le_iff]
  by_cases h1 : a1 = b1 <;> by_cases h2 : a2 = b2 <;> by_cases h3 : a3 = b3 <;>
    simp [h1, h2, h3, decide_eq_true_eq, not_lt, le_iff_lt_or_eq, String.ext_iff]

theorem keyLE4N_total (a b : Nat × Nat × Nat × String) :
    keyLE4N a b = true ∨ keyLE4N b a = true := by
  rw [keyLE4N_iff_toLex, keyLE4N_iff_toLex]
  exact le_total _ _

theorem keyLE4N_trans (a b c : Nat × Nat × Nat × String)
    (h1 : keyLE4N a b = true) (h2 : keyLE4N b c = true) : keyLE4N a c = true := by
  rw [keyLE4N_iff_toLex] at *
  exact le_trans h1 h2

theorem keyLE4I_total (a b : Nat × Int × Nat × String) :
    keyLE4I a b = true ∨ keyLE4I b a = true := by
  rw [keyLE4I_iff_toLex, keyLE4I_iff_toLex]
  exact le_total _ _

theorem keyLE4I_trans (a b c : Nat × Int × Nat × String)
    (h1 : keyLE4I a b = true) (h2 : keyLE4I b c = true) : keyLE4I a c = true := by
  rw [keyLE4I_iff_toLex] at *
  exact le_trans h1 h2

/-! ## Calendar lemmas -/

theorem monthLength_le_31 (y m : Nat) : monthLength y m ≤ 31 := by
  unfold monthLength
  split <;> first | omega | (split <;> omega)

theorem monthLength_pos (y m : Nat) (h1 : 1 ≤ m) (h2 : m ≤ 12) :
    0 < monthLength y m := by
  interval_cases m <;> simp [monthLength] <;> split <;> omega

theorem mem_date_range_iff (y m : Nat) (d : Date) :
    d ∈ date_range_for_month y m ↔
      d.year = y ∧ d.month = m ∧ 1 ≤ d.day ∧ d.day ≤ monthLength y m := by
  unfold date_range_for_month
  simp only [List.mem_map, List.mem_range]
  constructor
  · rintro ⟨i, hi, rfl⟩
    exact ⟨rfl, rfl, by simp, by simp; omega⟩
  · rintro ⟨h1, h2, h3, h4⟩
    refine ⟨d.day - 1, by omega, ?_⟩
    obtain ⟨dy, dm, dd⟩ := d
    simp only at h1 h2 h3 h4 ⊢
    subst h1; subst h2
    congr 1
    omega

theorem pad2_data_inj : ∀ a, a < 32 → ∀ b, b < 32 →
    (pad2 a).data = (pad2 b).data → a = b := by
  decide

theorem dateStr_inj_in_month (y m : Nat) (d₁ d₂ : Date)
    (h₁ : d₁ ∈ date_range_for_month y m) (h₂ : d₂ ∈ date_range_for_month y m)
    (h : dateStr d₁ = dateStr d₂) : d₁ = d₂ := by
  obtain ⟨hy₁, hm₁, hlo₁, hhi₁⟩ := (mem_date_range_iff y m d₁).mp h₁
  obtain ⟨hy₂, hm₂, hlo₂, hhi₂⟩ := (mem_date_range_iff y m d₂).mp h₂
  have hlen := monthLength_le_31 y m
  have hdata : (dateStr d₁).data = (dateStr d₂).data := by rw [h]
  unfold dateStr at hdata
  simp only [String.data_append, List.append_assoc, hy₁, hy₂, hm₁, hm₂] at hdata
  have hday : (pad2 d₁.day).data = (pad2 d₂.day).data := by
    have h1 := List.append_cancel_left hdata
    have h2 := List.append_cancel_left h1
    have h3 := List.append_cancel_left h2
    exact List.append_cancel_left h3
  have : d₁.day = d₂.day :=
    pad2_data_inj d₁.day (by omega) d₂.day (by omega) hday
  obtain ⟨y₁, m₁, dd₁⟩ := d₁
  obtain ⟨y₂, m₂, dd₂⟩ := d₂
  simp only at hy₁ hy₂ hm₁ hm₂ this
  subst hy₁; subst hy₂; subst hm₁; subst hm₂; subst this
  rfl

theorem date_range_nodup (y m : Nat) : (date_range_for_month y m).Nodup := by
  unfold date_range_for_month
  refine List.Nodup.map ?_ (List.nodup_range _)
  intro a b hab
  have : a + 1 = b + 1 := congrArg Date.day hab
  omega

/-! ## Candidate-list characterisations -/

theorem mem_make_employee_candidates (emps : List String) (ms : String → Int)
    (dm : String → List Nat) (count : String → Nat) (wk : Nat)
    (A hope ng : List String) (c : EmpCand) :
    c ∈ make_employee_candidates emps ms dm count wk A hope ng ↔
      c.staff_id ∈ emps ∧ empEligible ms dm count wk A ng c.staff_id = true ∧
      c = ⟨c.staff_id, hope.contains c.staff_id, count c.staff_id,
           ms c.staff_id - (count c.staff_id : Int)⟩ := by
  unfold make_employee_candidates
  rw [mem_stableSortBy]
  simp only [List.mem_filterMap]
  constructor
  · rintro ⟨sid, hsid, h⟩
    by_cases he : empEligible ms dm count wk A ng sid = true
    · rw [if_pos he] at h
      have hc := Option.some_injective _ h
      subst hc
      exact ⟨hsid, he, rfl⟩
    · rw [if_neg he] at h
      exact absurd h (Option.noConfusion)
  · rintro ⟨hsid, he, hc⟩
    exact ⟨c.staff_id, hsid, by rw [if_pos he, ← hc]⟩

theorem make_employee_candidates_eq_nil (emps : List String) (ms : String → Int)
    (dm : String → List Nat) (count : String → Nat) (wk : Nat)
    (A hope ng : List String) :
    make_employee_candidates emps ms dm count wk A hope ng = [] ↔
      ∀ sid ∈ emps, empEligible ms dm count wk A ng sid = false := by
  unfold make_employee_candidates
  rw [stableSortBy_eq_nil_iff, List.filterMap_eq_nil]
  constructor
  · intro h sid hsid
    have := h sid hsid
    by_cases he : empEligible ms dm count wk A ng sid = true
    · rw [if_pos he] at this; exact absurd this (Option.noConfusion)
    · exact Bool.not_eq_true _ ▸ Bool.of_not_eq_true he
  · intro h sid hsid
    rw [if_neg]
    rw [h sid hsid]
    simp

theorem mem_make_any_candidates (emps pts : List String)
    (pm : String → String) (ms : String → Int) (dm : String → List Nat)
    (count : String → Nat) (wk : Nat) (A hope ng : List String)
    (mode : String) (off : Bool) (c : AnyCand) :
    c ∈ make_any_candidates emps pts pm ms dm count wk A hope ng mode off ↔
      c.staff_id ∈ emps ++ pts ∧
      anyEligible emps ms dm count wk A ng c.staff_id = true ∧
      modeKeeps pm mode off c.staff_id = true ∧
      c = ⟨c.staff_id, emps.contains c.staff_id, hope.contains c.staff_id,
           count c.staff_id⟩ := by
  unfold make_any_candidates
  rw [mem_stableSortBy]
  simp only [List.mem_filterMap]
  constructor
  · rintro ⟨sid, hsid, h⟩
    by_cases he : (anyEligible emps ms dm count wk A ng sid &&
        modeKeeps pm mode off sid) = true
    · rw [if_pos he] at h
      have hc := Option.some_injective _ h
      subst hc
      rcases Bool.and_eq_true_iff.mp he with ⟨h1, h2⟩
      exact ⟨hsid, h1, h2, rfl⟩
    · rw [if_neg he] at h
      exact absurd h (Option.noConfusion)
  · rintro ⟨hsid, h1, h2, hc⟩
    refine ⟨c.staff_id, hsid, ?_⟩
    rw [if_pos (Bool.and_eq_true_iff.mpr ⟨h1, h2⟩), ← hc]

theorem make_any_candidates_eq_nil (emps pts : List String)
    (pm : String → String) (ms : String → Int) (dm : String → List Nat)
    (count : String → Nat) (wk : Nat) (A hope ng : List String)
    (mode : String) (off : Bool) :
    make_any_candidates emps pts pm ms dm count wk A hope ng mode off = [] ↔
      ∀ sid ∈ emps ++ pts,
        (anyEligible emps ms dm count wk A ng sid &&
         modeKeeps pm mode off sid) = false := by
  unfold make_any_candidates
  rw [stableSortBy_eq_nil_iff, List.filterMap_eq_nil]
  constructor
  · intro h sid hsid
    have := h sid hsid
    by_cases he : (anyEligible emps ms dm count wk A ng sid &&
        modeKeeps pm mode off sid) = true
    · rw [if_pos he] at this; exact absurd this (Option.noConfusion)
    · exact Bool.not_eq_true _ ▸ Bool.of_not_eq_true he
  · intro h sid hsid
    rw [if_neg]
    rw [h sid hsid]
    simp

theorem empEligible_antitone (ms : String → Int) (dm : String → List Nat)
    (c c' : String → Nat) (wk : Nat) (A A' ng : List String) (sid : String)
    (hA : ∀ x, A.contains x = true → A'.contains x = true)
    (hc : ∀ s, c s ≤ c' s)
    (h : empEligible ms dm c' wk A' ng sid = true) :
    empEligible ms dm c wk A ng sid = true := by
  unfold empEligible at *
  simp only [Bool.and_eq_true, Bool.not_eq_true', decide_eq_true_eq] at *
  obtain ⟨⟨⟨hng, hA'⟩, hcap⟩, hoff⟩ := h
  refine ⟨⟨⟨hng, ?_⟩, ?_⟩, hoff⟩
  · by_cases hx : A.contains sid = true
    · exact absurd (hA sid hx) (by rw [hA']; exact Bool.false_ne_true)
    · exact Bool.of_not_eq_true hx
  · have := hc sid
    omega

theorem anyEligible_antitone (emps : List String) (ms : String → Int)
    (dm : String → List Nat) (c c' : String → Nat) (wk : Nat)
    (A A' ng : List String) (sid : String)
    (hA : ∀ x, A.contains x = true → A'.contains x = true)
    (hc : ∀ s, c s ≤ c' s)
    (h : anyEligible emps ms dm c' wk A' ng sid = true) :
    anyEligible emps ms dm c wk A ng sid = true := by
  unfold anyEligible at *
  simp only [Bool.and_eq_true, Bool.not_eq_true', decide_eq_true_eq,
    decide_eq_false_iff_not] at *
  obtain ⟨⟨⟨hng, hA'⟩, hcap⟩, hoff⟩ := h
  refine ⟨⟨⟨hng, ?_⟩, ?_⟩, hoff⟩
  · by_cases hx : A.contains sid = true
    · exact absurd (hA sid hx) (by rw [hA']; exact Bool.false_ne_true)
    · exact Bool.of_not_eq_true hx
  · have := hc sid
    omega

theorem make_any_candidates_sato_free (emps pts : List String)
    (pm : String → String) (ms : String → Int) (dm : String → List Nat)
    (count : String → Nat) (wk : Nat) (A hope ng : List String)
    (mode : String) (off off' : Bool) (h : (mode == "kitchen") = false) :
    make_any_candidates emps pts pm ms dm count wk A hope ng mode off =
    make_any_candidates emps pts pm ms dm count wk A hope ng mode off' := by
  unfold make_any_candidates modeKeeps
  rw [h]
  simp

/-! ## Small list facts about the engine's bookkeeping -/

theorem todaysIds_append (r1 r2 : List ShiftRow) (day : String) :
    todaysIds (r1 ++ r2) day = todaysIds r1 day ++ todaysIds r2 day := by
  simp [todaysIds]

theorem todaysIds_autoRow_same (day sid : String) :
    todaysIds [autoRow day sid] day = [sid] := by
  simp [todaysIds, autoRow]

theorem countRowsFor_append (r1 r2 : List ShiftRow) (sid : String) :
    countRowsFor (r1 ++ r2) sid = countRowsFor r1 sid + countRowsFor r2 sid := by
  simp [countRowsFor]

theorem countRowsFor_autoRow (day sid s : String) :
    countRowsFor [autoRow day sid] s = if sid == s then 1 else 0 := by
  by_cases h : sid = s <;> simp [countRowsFor, autoRow, h]

theorem empCountOf_append (emps A B : List String) :
    empCountOf emps (A ++ B) = empCountOf emps A + empCountOf emps B := by
  simp [empCountOf]

theorem mem_todaysIds_of (rows : List ShiftRow) (day : String) (r : ShiftRow)
    (hr : r ∈ rows) (hdate : r.date = day) : r.staff_id ∈ todaysIds rows day := by
  simp only [todaysIds, List.mem_map]
  exact ⟨r, List.mem_filter.mpr ⟨hr, by simp [hdate]⟩, rfl⟩

theorem bumpCount_le (count : String → Nat) (sid s : String) :
    count s ≤ bumpCount count sid s := by
  unfold bumpCount
  split <;> omega

theorem bumpCount_same (count : String → Nat) (sid : String) :
    bumpCount count sid sid = count sid + 1 := by
  simp [bumpCount]

theorem bumpCount_other (count : String → Nat) (sid s : String) (h : s ≠ sid) :
    bumpCount count sid s = count s := by
  simp [bumpCount, h]

/-! ## Preservation of the engine invariant by one selection -/

theorem EngInv_step (emps pts : List String) (ms : String → Int)
    (dm : String → List Nat) (init : String → Nat)
    (requests : List RequestRow) (existing : List ShiftRow)
    (dates : List Date) (st : EngState) (d : Date) (sid : String)
    (hd : d ∈ dates)
    (hInv : EngInv emps pts ms dm init requests existing dates st)
    (hsid : (emps ++ pts).contains sid = true)
    (hng : (ng_set_for requests (dateStr d)).contains sid = false)
    (hcap : (st.count sid : Int) < ms sid)
    (hoff : emps.contains sid = true → (dm sid).contains d.weekday = false)
    (hnotA : ∀ r ∈ existing ++ st.new_shift_rows, r.date = dateStr d →
      r.staff_id ≠ sid) :
    EngInv emps pts ms dm init requests existing dates
      ⟨bumpCount st.count sid, st.new_shift_rows ++ [autoRow (dateStr d) sid]⟩ := by
  obtain ⟨hlink, hcapInv, hrows, hpair, hdisj⟩ := hInv
  refine ⟨?_, ?_, ?_, ?_, ?_⟩
  · intro s
    have h0 := hlink s
    dsimp only
    rw [countRowsFor_append, countRowsFor_autoRow]
    by_cases h : s = sid
    · subst h
      rw [bumpCount_same]
      simp only [beq_self_eq_true, if_true]
      omega
    · rw [bumpCount_other _ _ _ h]
      have h2 : (sid == s) = false := by simp [Ne.symm h]
      rw [h2, if_neg Bool.false_ne_true]
      omega
  · intro s
    have h0 := hcapInv s
    dsimp only
    by_cases h : s = sid
    · subst h
      rw [bumpCount_same]
      have hmax := le_max_right (init s : Int) (ms s)
      push_cast
      omega
    · rw [bumpCount_other _ _ _ h]
      exact h0
  · intro r hr
    rcases List.mem_append.mp hr with hold | hnew
    · exact hrows r hold
    · have : r = autoRow (dateStr d) sid := List.mem_singleton.mp hnew
      subst this
      refine ⟨rfl, rfl, rfl, hsid, hng, d, hd, rfl, hoff⟩
  · rw [List.pairwise_append]
    refine ⟨hpair, List.pairwise_singleton _ _, ?_⟩
    intro a ha b hb
    have hb' : b = autoRow (dateStr d) sid := List.mem_singleton.mp hb
    subst hb'
    rintro ⟨hdate, hstaff⟩
    exact hnotA a (List.mem_append.mpr (Or.inr ha)) hdate hstaff
  · intro r hr e he
    rcases List.mem_append.mp hr with hold | hnew
    · exact hdisj r hold e he
    · have : r = autoRow (dateStr d) sid := List.mem_singleton.mp hnew
      subst this
      rintro ⟨hdate, hstaff⟩
      exact hnotA e (List.mem_append.mpr (Or.inl he)) hdate.symm hstaff.symm

/-! ## The Phase-1/2 selection loop -/

theorem assignEmpLoop_spec (emps pts : List String) (ms : String → Int)
    (dm : String → List Nat) (init : String → Nat)
    (requests : List RequestRow) (existing : List ShiftRow)
    (dates : List Date) (d : Date) (hd : d ∈ dates) :
    ∀ (n : Nat) (st : EngState) (A : List String),
      A = todaysIds existing (dateStr d) ++ todaysIds st.new_shift_rows (dateStr d) →
      EngInv emps pts ms dm init requests existing dates st →
      ∃ l : List ShiftRow,
        (assignEmpLoop emps ms dm (dateStr d) d.weekday
            (hope_set_for requests (dateStr d)) (ng_set_for requests (dateStr d))
            n A st).new_shift_rows = st.new_shift_rows ++ l ∧
        (∀ r ∈ l, r.date = dateStr d ∧ r.staff_id ∈ emps) ∧
        (∀ s, st.count s ≤ (assignEmpLoop emps ms dm (dateStr d) d.weekday
            (hope_set_for requests (dateStr d)) (ng_set_for requests (dateStr d))
            n A st).count s) ∧
        EngInv emps pts ms dm init requests existing dates
          (assignEmpLoop emps ms dm (dateStr d) d.weekday
            (hope_set_for requests (dateStr d)) (ng_set_for requests (dateStr d))
            n A st) ∧
        (todaysIds existing (dateStr d) ++
          todaysIds (assignEmpLoop emps ms dm (dateStr d) d.weekday
            (hope_set_for requests (dateStr d)) (ng_set_for requests (dateStr d))
            n A st).new_shift_rows (dateStr d)
          = A ++ l.map (fun r => r.staff_id)) ∧
        (l.length = n ∨
          make_employee_candidates emps ms dm
            (assignEmpLoop emps ms dm (dateStr d) d.weekday
              (hope_set_for requests (dateStr d)) (ng_set_for requests (dateStr d))
              n A st).count d.weekday
            (A ++ l.map (fun r => r.staff_id))
            (hope_set_for requests (dateStr d)) (ng_set_for requests (dateStr d))
            = []) := by
  intro n
  induction n with
  | zero =>
    intro st A hA hInv
    refine ⟨[], by simp [assignEmpLoop], by simp, ?_, ?_, ?_, Or.inl rfl⟩
    · intro s; simp [assignEmpLoop]
    · simpa [assignEmpLoop] using hInv
    · simp [assignEmpLoop, hA]
  | succ n ih =>
    intro st A hA hInv
    rcases hcand : make_employee_candidates emps ms dm st.count d.weekday A
        (hope_set_for requests (dateStr d)) (ng_set_for requests (dateStr d))
      with _ | ⟨chosen, rest⟩
    · have hstep : assignEmpLoop emps ms dm (dateStr d) d.weekday
          (hope_set_for requests (dateStr d)) (ng_set_for requests (dateStr d))
          (n + 1) A st = st := by
        rw [assignEmpLoop, hcand]
      refine ⟨[], by rw [hstep]; simp, by simp, ?_, ?_, ?_, Or.inr ?_⟩
      · intro s; rw [hstep]
      · rw [hstep]; exact hInv
      · rw [hstep, hA]; simp
      · rw [hstep]; simpa using hcand
    · have hchosen : chosen ∈ make_employee_candidates emps ms dm st.count
          d.weekday A (hope_set_for requests (dateStr d))
          (ng_set_for requests (dateStr d)) := by
        rw [hcand]; exact List.mem_cons_self _ _
      obtain ⟨hmem, helig, _⟩ :=
        (mem_make_employee_candidates _ _ _ _ _ _ _ _ _).mp hchosen
      have helig' := helig
      unfold empEligible at helig'
      simp only [Bool.and_eq_true, Bool.not_eq_true', decide_eq_true_eq] at helig'
      obtain ⟨⟨⟨hng, hnotin⟩, hcap⟩, hoff⟩ := helig'
      have hnotmem : chosen.staff_id ∉ A := by
        simpa using hnotin
      have hnotA : ∀ r ∈ existing ++ st.new_shift_rows, r.date = dateStr d →
          r.staff_id ≠ chosen.staff_id := by
        intro r hr hrd heq
        apply hnotmem
        rw [hA]
        rcases List.mem_append.mp hr with h1 | h1
        · exact List.mem_append.mpr (Or.inl (heq ▸ mem_todaysIds_of _ _ r h1 hrd))
        · exact List.mem_append.mpr (Or.inr (heq ▸ mem_todaysIds_of _ _ r h1 hrd))
      have hInvB := EngInv_step emps pts ms dm init requests existing dates st d
        chosen.staff_id hd hInv
        (by simp; exact Or.inl hmem) hng (by omega) (fun _ => hoff) hnotA
      have hAB : A ++ [chosen.staff_id] =
          todaysIds existing (dateStr d) ++
          todaysIds (st.new_shift_rows ++ [autoRow (dateStr d) chosen.staff_id])
            (dateStr d) := by
        rw [todaysIds_append, todaysIds_autoRow_same, hA, List.append_assoc]
      obtain ⟨lB, h1, h2, h3, h4, h5, h6⟩ :=
        ih ⟨bumpCount st.count chosen.staff_id,
            st.new_shift_rows ++ [autoRow (dateStr d) chosen.staff_id]⟩
          (A ++ [chosen.staff_id]) hAB hInvB
      have hstep : assignEmpLoop emps ms dm (dateStr d) d.weekday
          (hope_set_for requests (dateStr d)) (ng_set_for requests (dateStr d))
          (n + 1) A st =
          assignEmpLoop emps ms dm (dateStr d) d.weekday
            (hope_set_for requests (dateStr d)) (ng_set_for requests (dateStr d))
            n (A ++ [chosen.staff_id])
            ⟨bumpCount st.count chosen.staff_id,
             st.new_shift_rows ++ [autoRow (dateStr d) chosen.staff_id]⟩ := by
        rw [assignEmpLoop, hcand]
      refine ⟨autoRow (dateStr d) chosen.staff_id :: lB, ?_, ?_, ?_, ?_, ?_, ?_⟩
      · rw [hstep, h1]; simp
      · intro r hr
        rcases List.mem_cons.mp hr with rfl | hr
        · exact ⟨rfl, hmem⟩
        · exact h2 r hr
      · intro s
        rw [hstep]
        exact le_trans (bumpCount_le st.count chosen.staff_id s) (h3 s)
      · rw [hstep]; exact h4
      · rw [hstep, h5]; simp [autoRow]
      · rcases h6 with h6 | h6
        · left; simp [h6]
        · right
          rw [hstep]
          have : A ++ (autoRow (dateStr d) chosen.staff_id :: lB).map
              (fun r => r.staff_id) =
              (A ++ [chosen.staff_id]) ++ lB.map (fun r => r.staff_id) := by
            simp [autoRow]
          rw [this]
          exact h6

/-! ## `assign_employees_for_day` and the Phase-1/2 folds -/

theorem assign_employees_for_day_spec (emps pts : List String)
    (ms : String → Int) (dm : String → List Nat) (init : String → Nat)
    (requests : List RequestRow) (existing : List ShiftRow)
    (dates : List Date) (d : Date) (hd : d ∈ dates) (target : Nat)
    (st : EngState)
    (hInv : EngInv emps pts ms dm init requests existing dates st) :
    ∃ l : List ShiftRow,
      (assign_employees_for_day emps ms dm requests existing d target st).new_shift_rows
        = st.new_shift_rows ++ l ∧
      (∀ s, st.count s ≤
        (assign_employees_for_day emps ms dm requests existing d target st).count s) ∧
      EngInv emps pts ms dm init requests existing dates
        (assign_employees_for_day emps ms dm requests existing d target st) ∧
      EmpDone emps ms dm requests existing target d
        (assign_employees_for_day emps ms dm requests existing d target st) := by
  unfold assign_employees_for_day
  by_cases hneed : (target - empCountOf emps
      (todaysIds existing (dateStr d) ++ todaysIds st.new_shift_rows (dateStr d))) = 0
  · rw [if_pos (by simpa using hneed)]
    refine ⟨[], by simp, fun s => le_refl _, hInv, Or.inl ?_⟩
    omega
  · rw [if_neg (by simpa using hneed)]
    obtain ⟨l, h1, h2, h3, h4, h5, h6⟩ :=
      assignEmpLoop_spec emps pts ms dm init requests existing dates d hd
        (target - empCountOf emps
          (todaysIds existing (dateStr d) ++ todaysIds st.new_shift_rows (dateStr d)))
        st _ rfl hInv
    refine ⟨l, h1, h3, h4, ?_⟩
    rcases h6 with h6 | h6
    · left
      rw [h1, todaysIds_append, ← List.append_assoc, empCountOf_append]
      have hall : empCountOf emps (todaysIds l (dateStr d)) = l.length := by
        have hfilter : (todaysIds l (dateStr d)) = l.map (fun r => r.staff_id) := by
          unfold todaysIds
          congr 1
          apply List.filter_eq_self.mpr
          intro r hr
          simp [(h2 r hr).1]
        rw [hfilter]
        unfold empCountOf
        rw [List.filter_eq_self.mpr, List.length_map]
        intro x hx
        rcases List.mem_map.mp hx with ⟨r, hr, rfl⟩
        simp [(h2 r hr).2]
      rw [hall, h6]
      omega
    · right
      have hA' : todaysIds existing (dateStr d) ++
          todaysIds (assignEmpLoop emps ms dm (dateStr d) d.weekday
            (hope_set_for requests (dateStr d)) (ng_set_for requests (dateStr d))
            (target - empCountOf emps
              (todaysIds existing (dateStr d) ++ todaysIds st.new_shift_rows (dateStr d)))
            (todaysIds existing (dateStr d) ++ todaysIds st.new_shift_rows (dateStr d))
            st).new_shift_rows (dateStr d) =
          (todaysIds existing (dateStr d) ++ todaysIds st.new_shift_rows (dateStr d))
            ++ l.map (fun r => r.staff_id) := h5
      rw [hA']
      exact h6

theorem EmpDone_mono (emps : List String) (ms : String → Int)
    (dm : String → List Nat) (requests : List RequestRow)
    (existing : List ShiftRow) (target : Nat) (d : Date) (st st' : EngState)
    (hrows : ∃ l, st'.new_shift_rows = st.new_shift_rows ++ l)
    (hcount : ∀ s, st.count s ≤ st'.count s)
    (h : EmpDone emps ms dm requests existing target d st) :
    EmpDone emps ms dm requests existing target d st' := by
  obtain ⟨l, hl⟩ := hrows
  unfold EmpDone at *
  rw [hl, todaysIds_append, ← List.append_assoc] at *
  rcases h with h | h
  · left
    rw [empCountOf_append]
    omega
  · right
    rw [make_employee_candidates_eq_nil] at *
    intro sid hsid
    by_cases he : empEligible ms dm st'.count d.weekday
        ((todaysIds existing (dateStr d) ++ todaysIds st.new_shift_rows (dateStr d)) ++
          todaysIds l (dateStr d)) (ng_set_for requests (dateStr d)) sid = true
    · have := empEligible_antitone ms dm st.count st'.count d.weekday
        (todaysIds existing (dateStr d) ++ todaysIds st.new_shift_rows (dateStr d))
        ((todaysIds existing (dateStr d) ++ todaysIds st.new_shift_rows (dateStr d)) ++
          todaysIds l (dateStr d))
        (ng_set_for requests (dateStr d)) sid
        (by intro x hx; simp at *; tauto) hcount he
      rw [h sid hsid] at this
      exact absurd this (by simp)
    · exact Bool.of_not_eq_true he

theorem empPhaseFold_spec (emps pts : List String) (ms : String → Int)
    (dm : String → List Nat) (init : String → Nat)
    (requests : List RequestRow) (existing : List ShiftRow)
    (dates : List Date) (target : Nat) :
    ∀ (dl : List Date), (∀ d ∈ dl, d ∈ dates) →
    ∀ (st : EngState),
      EngInv emps pts ms dm init requests existing dates st →
      (∃ l, (dl.foldl (fun st d =>
          assign_employees_for_day emps ms dm requests existing d target st)
          st).new_shift_rows = st.new_shift_rows ++ l) ∧
      (∀ s, st.count s ≤ (dl.foldl (fun st d =>
          assign_employees_for_day emps ms dm requests existing d target st)
          st).count s) ∧
      EngInv emps pts ms dm init requests existing dates
        (dl.foldl (fun st d =>
          assign_employees_for_day emps ms dm requests existing d target st) st) ∧
      ∀ d ∈ dl, EmpDone emps ms dm requests existing target d
        (dl.foldl (fun st d =>
          assign_employees_for_day emps ms dm requests existing d target st) st) := by
  intro dl
  induction dl with
  | nil =>
    intro _ st hInv
    exact ⟨⟨[], by simp⟩, fun s => le_refl _, hInv, by simp⟩
  | cons d rest ih =>
    intro hdl st hInv
    obtain ⟨l₁, h1, h2, h3, h4⟩ :=
      assign_employees_for_day_spec emps pts ms dm init requests existing dates d
        (hdl d (List.mem_cons_self _ _)) target st hInv
    obtain ⟨⟨l₂, hl₂⟩, hcnt, hinv', hdone⟩ :=
      ih (fun d' hd' => hdl d' (List.mem_cons_of_mem _ hd'))
        (assign_employees_for_day emps ms dm requests existing d target st) h3
    rw [List.foldl_cons]
    refine ⟨⟨l₁ ++ l₂, by rw [hl₂, h1, List.append_assoc]⟩,
      fun s => le_trans (h2 s) (hcnt s), hinv', ?_⟩
    intro d' hd'
    rcases List.mem_cons.mp hd' with rfl | hd'
    · exact EmpDone_mono emps ms dm requests existing target d' _ _
        ⟨l₂, hl₂⟩ hcnt h4
    · exact hdone d' hd'

/-! ## The Phase-3 selection loop -/

theorem kitchenCountOf_append (pm : String → String) (A B : List String) :
    kitchenCountOf pm (A ++ B) = kitchenCountOf pm A + kitchenCountOf pm B := by
  simp [kitchenCountOf]

theorem is_kitchen_capable_sato (pm : String → String) (off : Bool) :
    is_kitchen_capable_for_day pm EMP_SATO_ID off = false := by
  simp [is_kitchen_capable_for_day]

theorem phase3_mode_of_lt (kc hc : Nat) (h : kc < 2) :
    phase3_mode kc hc = "kitchen" := by
  unfold phase3_mode
  rw [if_pos (by omega)]

theorem phase3_mode_ne_kitchen (kc hc : Nat) (h : 2 ≤ kc) :
    (phase3_mode kc hc == "kitchen") = false := by
  unfold phase3_mode
  rw [if_neg (by omega)]
  split <;> decide

theorem phase3Loop_spec (emps pts : List String) (pm : String → String)
    (ms : String → Int) (dm : String → List Nat) (init : String → Nat)
    (requests : List RequestRow) (existing : List ShiftRow)
    (dates : List Date) (d : Date) (hd : d ∈ dates) (off : Bool) :
    ∀ (n : Nat) (st : EngState) (A : List String),
      A = todaysIds existing (dateStr d) ++ todaysIds st.new_shift_rows (dateStr d) →
      EngInv emps pts ms dm init requests existing dates st →
      ∃ l : List ShiftRow,
        (phase3Loop emps pts pm ms dm (dateStr d) d.weekday
            (hope_set_for requests (dateStr d)) (ng_set_for requests (dateStr d))
            off n A st).new_shift_rows = st.new_shift_rows ++ l ∧
        (∀ r ∈ l, r.date = dateStr d) ∧
        (∀ s, st.count s ≤ (phase3Loop emps pts pm ms dm (dateStr d) d.weekday
            (hope_set_for requests (dateStr d)) (ng_set_for requests (dateStr d))
            off n A st).count s) ∧
        EngInv emps pts ms dm init requests existing dates
          (phase3Loop emps pts pm ms dm (dateStr d) d.weekday
            (hope_set_for requests (dateStr d)) (ng_set_for requests (dateStr d))
            off n A st) ∧
        (todaysIds existing (dateStr d) ++
          todaysIds (phase3Loop emps pts pm ms dm (dateStr d) d.weekday
            (hope_set_for requests (dateStr d)) (ng_set_for requests (dateStr d))
            off n A st).new_shift_rows (dateStr d)
          = A ++ l.map (fun r => r.staff_id)) ∧
        (l.length = n ∨
          make_any_candidates emps pts pm ms dm
            (phase3Loop emps pts pm ms dm (dateStr d) d.weekday
              (hope_set_for requests (dateStr d)) (ng_set_for requests (dateStr d))
              off n A st).count d.weekday
            (A ++ l.map (fun r => r.staff_id))
            (hope_set_for requests (dateStr d)) (ng_set_for requests (dateStr d))
            (phase3_mode
              (kitchenCountOf pm (A ++ l.map (fun r => r.staff_id)))
              (hallCountOf pm (A ++ l.map (fun r => r.staff_id))))
            off = []) ∧
        (kitchenCountOf pm (A ++ l.map (fun r => r.staff_id)) < 2 →
          (EMP_SATO_ID ∈ A ++ l.map (fun r => r.staff_id) ↔ EMP_SATO_ID ∈ A)) := by
  intro n
  induction n with
  | zero =>
    intro st A hA hInv
    refine ⟨[], by simp [phase3Loop], by simp, ?_, ?_, ?_, Or.inl rfl, by simp⟩
    · intro s; simp [phase3Loop]
    · simpa [phase3Loop] using hInv
    · simp [phase3Loop, hA]
  | succ n ih =>
    intro st A hA hInv
    rcases hcand : make_any_candidates emps pts pm ms dm st.count d.weekday A
        (hope_set_for requests (dateStr d)) (ng_set_for requests (dateStr d))
        (phase3_mode (kitchenCountOf pm A) (hallCountOf pm A)) off
      with _ | ⟨chosen, rest⟩
    · have hstep : phase3Loop emps pts pm ms dm (dateStr d) d.weekday
          (hope_set_for requests (dateStr d)) (ng_set_for requests (dateStr d))
          off (n + 1) A st = st := by
        rw [phase3Loop, hcand]
      refine ⟨[], by rw [hstep]; simp, by simp, ?_, ?_, ?_, Or.inr ?_, by simp⟩
      · intro s; rw [hstep]
      · rw [hstep]; exact hInv
      · rw [hstep, hA]; simp
      · rw [hstep]; simpa using hcand
    · have hchosen : chosen ∈ make_any_candidates emps pts pm ms dm st.count
          d.weekday A (hope_set_for requests (dateStr d))
          (ng_set_for requests (dateStr d))
          (phase3_mode (kitchenCountOf pm A) (hallCountOf pm A)) off := by
        rw [hcand]; exact List.mem_cons_self _ _
      obtain ⟨hmem, helig, hkeep, _⟩ :=
        (mem_make_any_candidates _ _ _ _ _ _ _ _ _ _ _ _ _).mp hchosen
      have helig' := helig
      unfold anyEligible at helig'
      simp only [Bool.and_eq_true, Bool.not_eq_true', decide_eq_true_eq,
        decide_eq_false_iff_not] at helig'
      obtain ⟨⟨⟨hng, hnotin⟩, hcap⟩, hoff⟩ := helig'
      have hnotmem : chosen.staff_id ∉ A := by
        simpa using hnotin
      have hnotA : ∀ r ∈ existing ++ st.new_shift_rows, r.date = dateStr d →
          r.staff_id ≠ chosen.staff_id := by
        intro r hr hrd heq
        apply hnotmem
        rw [hA]
        rcases List.mem_append.mp hr with h1 | h1
        · exact List.mem_append.mpr (Or.inl (heq ▸ mem_todaysIds_of _ _ r h1 hrd))
        · exact List.mem_append.mpr (Or.inr (heq ▸ mem_todaysIds_of _ _ r h1 hrd))
      have hoffcond : emps.contains chosen.staff_id = true →
          (dm chosen.staff_id).contains d.weekday = false := by
        intro hc
        rcases Bool.and_eq_false_iff.mp hoff with h | h
        · rw [hc] at h; exact absurd h (by simp)
        · exact h
      have hInvB := EngInv_step emps pts ms dm init requests existing dates st d
        chosen.staff_id hd hInv (by simpa using hmem) hng (by omega) hoffcond hnotA
      have hAB : A ++ [chosen.staff_id] =
          todaysIds existing (dateStr d) ++
          todaysIds (st.new_shift_rows ++ [autoRow (dateStr d) chosen.staff_id])
            (dateStr d) := by
        rw [todaysIds_append, todaysIds_autoRow_same, hA, List.append_assoc]
      obtain ⟨lB, h1, h2, h3, h4, h5, h6, h7⟩ :=
        ih ⟨bumpCount st.count chosen.staff_id,
            st.new_shift_rows ++ [autoRow (dateStr d) chosen.staff_id]⟩
          (A ++ [chosen.staff_id]) hAB hInvB
      have hstep : phase3Loop emps pts pm ms dm (dateStr d) d.weekday
          (hope_set_for requests (dateStr d)) (ng_set_for requests (dateStr d))
          off (n + 1) A st =
          phase3Loop emps pts pm ms dm (dateStr d) d.weekday
            (hope_set_for requests (dateStr d)) (ng_set_for requests (dateStr d))
            off n (A ++ [chosen.staff_id])
            ⟨bumpCount st.count chosen.staff_id,
             st.new_shift_rows ++ [autoRow (dateStr d) chosen.staff_id]⟩ := by
        rw [phase3Loop, hcand]
      have hmap : A ++ (autoRow (dateStr d) chosen.staff_id :: lB).map
          (fun r => r.staff_id) =
          (A ++ [chosen.staff_id]) ++ lB.map (fun r => r.staff_id) := by
        simp [autoRow]
      refine ⟨autoRow (dateStr d) chosen.staff_id :: lB, ?_, ?_, ?_, ?_, ?_, ?_, ?_⟩
      · rw [hstep, h1]; simp
      · intro r hr
        rcases List.mem_cons.mp hr with rfl | hr
        · exact rfl
        · exact (h2 r hr)
      · intro s
        rw [hstep]
        exact le_trans (bumpCount_le st.count chosen.staff_id s) (h3 s)
      · rw [hstep]; exact h4
      · rw [hstep, h5, hmap]
      · rcases h6 with h6 | h6
        · left; simp [h6]
        · right
          rw [hstep, hmap]
          exact h6
      · rw [hmap]
        intro hklt
        rw [h7 hklt]
        by_cases hk : kitchenCountOf pm A < 2
        · have hmode : phase3_mode (kitchenCountOf pm A) (hallCountOf pm A)
              = "kitchen" := phase3_mode_of_lt _ _ hk
          rw [hmode] at hkeep
          have hcapable : is_kitchen_capable_for_day pm chosen.staff_id off = true := by
            simpa [modeKeeps] using hkeep
          have hne : chosen.staff_id ≠ EMP_SATO_ID := by
            intro heq
            rw [heq, is_kitchen_capable_sato] at hcapable
            exact absurd hcapable (by simp)
          simp [Ne.symm hne]
        · exfalso
          have hx : 2 ≤ kitchenCountOf pm ((A ++ [chosen.staff_id]) ++
              lB.map (fun r => r.staff_id)) := by
            rw [kitchenCountOf_append, kitchenCountOf_append]
            omega
          omega

/-! ## `phase3Day` and the Phase-3 fold -/

theorem phase3_mode_kitchen_iff (kc hc : Nat) :
    phase3_mode kc hc = "kitchen" ↔ kc < 2 := by
  unfold phase3_mode
  by_cases h : 0 < 2 - kc
  · rw [if_pos h]
    exact ⟨fun _ => by omega, fun _ => rfl⟩
  · rw [if_neg h]
    constructor
    · intro hx
      split at hx <;> exact absurd hx (by decide)
    · intro hx
      exact absurd hx (by omega)

theorem todaysIds_nil_of_ne (l : List ShiftRow) (day day' : String)
    (hl : ∀ r ∈ l, r.date = day) (hne : day ≠ day') :
    todaysIds l day' = [] := by
  unfold todaysIds
  rw [List.filter_eq_nil.mpr, List.map_nil]
  intro r hr
  simp [hl r hr, hne]

theorem phase3Day_spec (emps pts : List String) (pm : String → String)
    (ms : String → Int) (dm : String → List Nat) (init : String → Nat)
    (requests : List RequestRow) (existing : List ShiftRow)
    (dates : List Date) (combined : List ShiftRow) (d : Date) (hd : d ∈ dates)
    (st : EngState)
    (hcomb : todaysIds combined (dateStr d) =
      todaysIds existing (dateStr d) ++ todaysIds st.new_shift_rows (dateStr d))
    (hInv : EngInv emps pts ms dm init requests existing dates st) :
    ∃ l : List ShiftRow,
      (phase3Day emps pts pm ms dm requests combined d st).new_shift_rows
        = st.new_shift_rows ++ l ∧
      (∀ r ∈ l, r.date = dateStr d) ∧
      (∀ s, st.count s ≤ (phase3Day emps pts pm ms dm requests combined d st).count s) ∧
      EngInv emps pts ms dm init requests existing dates
        (phase3Day emps pts pm ms dm requests combined d st) ∧
      P3Done emps pts pm ms dm requests existing d
        (phase3Day emps pts pm ms dm requests combined d st) := by
  unfold phase3Day
  by_cases hrem : (required_staff_for d - (todaysIds combined (dateStr d)).length) = 0
  · rw [if_pos (by simpa using hrem)]
    refine ⟨[], by simp, by simp, fun s => le_refl _, hInv, Or.inl ?_⟩
    rw [← hcomb]
    omega
  · rw [if_neg (by simpa using hrem)]
    obtain ⟨l, h1, h2, h3, h4, h5, h6, h7⟩ :=
      phase3Loop_spec emps pts pm ms dm init requests existing dates d hd
        (!(todaysIds combined (dateStr d)).contains EMP_SATO_ID)
        (required_staff_for d - (todaysIds combined (dateStr d)).length)
        st (todaysIds combined (dateStr d)) hcomb hInv
    refine ⟨l, h1, h2, h3, h4, ?_⟩
    rcases h6 with h6 | h6
    · left
      rw [h1, todaysIds_append, ← List.append_assoc, ← hcomb]
      have : (todaysIds l (dateStr d)).length = l.length := by
        unfold todaysIds
        rw [List.filter_eq_self.mpr, List.length_map]
        intro r hr
        simp [h2 r hr]
      rw [List.length_append, this, h6]
      omega
    · right
      rw [h5]
      by_cases hmode : phase3_mode
          (kitchenCountOf pm (todaysIds combined (dateStr d) ++
            l.map (fun r => r.staff_id)))
          (hallCountOf pm (todaysIds combined (dateStr d) ++
            l.map (fun r => r.staff_id))) = "kitchen"
      · have hklt := (phase3_mode_kitchen_iff _ _).mp hmode
        have hsato := h7 hklt
        have hcontains : ((todaysIds combined (dateStr d) ++
            l.map (fun r => r.staff_id)).contains EMP_SATO_ID) =
            ((todaysIds combined (dateStr d)).contains EMP_SATO_ID) := by
          by_cases hs : EMP_SATO_ID ∈ todaysIds combined (dateStr d)
          · simp [hs, hsato.mpr hs]
          · have hs2 : EMP_SATO_ID ∉ todaysIds combined (dateStr d) ++
                l.map (fun r => r.staff_id) := fun hx => hs (hsato.mp hx)
            simp [hs, hs2]
        rw [hcontains]
        exact h6
      · have hne : ((phase3_mode
            (kitchenCountOf pm (todaysIds combined (dateStr d) ++
              l.map (fun r => r.staff_id)))
            (hallCountOf pm (todaysIds combined (dateStr d) ++
              l.map (fun r => r.staff_id)))) == "kitchen") = false := by
          simpa using hmode
        rw [make_any_candidates_sato_free emps pts pm ms dm
          (phase3Loop emps pts pm ms dm (dateStr d) d.weekday
            (hope_set_for requests (dateStr d)) (ng_set_for requests (dateStr d))
            (!(todaysIds combined (dateStr d)).contains EMP_SATO_ID)
            (required_staff_for d - (todaysIds combined (dateStr d)).length)
            (todaysIds combined (dateStr d)) st).count d.weekday
          (todaysIds combined (dateStr d) ++ l.map (fun r => r.staff_id))
          (hope_set_for requests (dateStr d)) (ng_set_for requests (dateStr d))
          _
          (!((todaysIds combined (dateStr d) ++
            l.map (fun r => r.staff_id)).contains EMP_SATO_ID))
          (!(todaysIds combined (dateStr d)).contains EMP_SATO_ID) hne]
        exact h6

theorem P3Done_mono (emps pts : List String) (pm : String → String)
    (ms : String → Int) (dm : String → List Nat) (requests : List RequestRow)
    (existing : List ShiftRow) (d : Date) (st st' : EngState)
    (hrows : ∃ l, st'.new_shift_rows = st.new_shift_rows ++ l ∧
      ∀ r ∈ l, r.date ≠ dateStr d)
    (hcount : ∀ s, st.count s ≤ st'.count s)
    (h : P3Done emps pts pm ms dm requests existing d st) :
    P3Done emps pts pm ms dm requests existing d st' := by
  obtain ⟨l, hl, hld⟩ := hrows
  have hnil : todaysIds l (dateStr d) = [] := by
    unfold todaysIds
    rw [List.filter_eq_nil.mpr, List.map_nil]
    intro r hr
    simp [hld r hr]
  have hT : todaysIds st'.new_shift_rows (dateStr d) =
      todaysIds st.new_shift_rows (dateStr d) := by
    rw [hl, todaysIds_append, hnil, List.append_nil]
  unfold P3Done at *
  rw [hT]
  rcases h with h | h
  · exact Or.inl h
  · right
    rw [make_any_candidates_eq_nil] at *
    intro sid hsid
    have hprev := h sid hsid
    by_cases he : anyEligible emps ms dm st'.count d.weekday
        (todaysIds existing (dateStr d) ++ todaysIds st.new_shift_rows (dateStr d))
        (ng_set_for requests (dateStr d)) sid = true
    · have helig0 := anyEligible_antitone emps ms dm st.count st'.count d.weekday
        (todaysIds existing (dateStr d) ++ todaysIds st.new_shift_rows (dateStr d))
        (todaysIds existing (dateStr d) ++ todaysIds st.new_shift_rows (dateStr d))
        (ng_set_for requests (dateStr d)) sid (fun x hx => hx) hcount he
      rw [helig0] at hprev
      simp only [Bool.true_and] at hprev
      rw [he, hprev]
      simp
    · rw [Bool.of_not_eq_true he]
      simp

theorem phase3Fold_spec (emps pts : List String) (pm : String → String)
    (ms : String → Int) (dm : String → List Nat) (init : String → Nat)
    (requests : List RequestRow) (existing : List ShiftRow) (y m : Nat)
    (combined : List ShiftRow) :
    ∀ (dl : List Date), dl.Nodup → (∀ d ∈ dl, d ∈ date_range_for_month y m) →
    ∀ st : EngState,
      EngInv emps pts ms dm init requests existing (date_range_for_month y m) st →
      (∀ d ∈ dl, todaysIds combined (dateStr d) =
        todaysIds existing (dateStr d) ++ todaysIds st.new_shift_rows (dateStr d)) →
      (∃ l, (dl.foldl (fun st d =>
          phase3Day emps pts pm ms dm requests combined d st) st).new_shift_rows
          = st.new_shift_rows ++ l ∧ ∀ r ∈ l, ∃ d ∈ dl, r.date = dateStr d) ∧
      (∀ s, st.count s ≤ (dl.foldl (fun st d =>
          phase3Day emps pts pm ms dm requests combined d st) st).count s) ∧
      EngInv emps pts ms dm init requests existing (date_range_for_month y m)
        (dl.foldl (fun st d => phase3Day emps pts pm ms dm requests combined d st) st) ∧
      (∀ d ∈ dl, P3Done emps pts pm ms dm requests existing d
        (dl.foldl (fun st d => phase3Day emps pts pm ms dm requests combined d st) st)) := by
  intro dl
  induction dl with
  | nil =>
    intro _ _ st hInv _
    exact ⟨⟨[], by simp, by simp⟩, fun s => le_refl _, hInv, by simp⟩
  | cons d rest ih =>
    intro hnd hdl st hInv hfrozen
    have hdmem : d ∈ date_range_for_month y m := hdl d (List.mem_cons_self _ _)
    obtain ⟨l₁, h1, h2, h3, h4, h5⟩ :=
      phase3Day_spec emps pts pm ms dm init requests existing
        (date_range_for_month y m) combined d hdmem st
        (hfrozen d (List.mem_cons_self _ _)) hInv
    have hdne : ∀ d' ∈ rest, dateStr d ≠ dateStr d' := by
      intro d' hd' heq
      have : d = d' := dateStr_inj_in_month y m d d' hdmem
        (hdl d' (List.mem_cons_of_mem _ hd')) heq
      subst this
      exact (List.nodup_cons.mp hnd).1 hd'
    have hfrozen' : ∀ d' ∈ rest, todaysIds combined (dateStr d') =
        todaysIds existing (dateStr d') ++
        todaysIds (phase3Day emps pts pm ms dm requests combined d st).new_shift_rows
          (dateStr d') := by
      intro d' hd'
      have hnil : todaysIds l₁ (dateStr d') = [] :=
        todaysIds_nil_of_ne l₁ (dateStr d) (dateStr d') h2 (hdne d' hd')
      rw [h1, todaysIds_append, hnil, List.append_nil]
      exact hfrozen d' (List.mem_cons_of_mem _ hd')
    obtain ⟨⟨l₂, hl₂, hl₂d⟩, hcnt, hinv', hdone⟩ :=
      ih (List.nodup_cons.mp hnd).2
        (fun d' hd' => hdl d' (List.mem_cons_of_mem _ hd'))
        (phase3Day emps pts pm ms dm requests combined d st) h4 hfrozen'
    rw [List.foldl_cons]
    refine ⟨⟨l₁ ++ l₂, by rw [hl₂, h1, List.append_assoc], ?_⟩,
      fun s => le_trans (h3 s) (hcnt s), hinv', ?_⟩
    · intro r hr
      rcases List.mem_append.mp hr with hr | hr
      · exact ⟨d, List.mem_cons_self _ _, h2 r hr⟩
      · obtain ⟨d', hd', hrd⟩ := hl₂d r hr
        exact ⟨d', List.mem_cons_of_mem _ hd', hrd⟩
    · intro d' hd'
      rcases List.mem_cons.mp hd' with rfl | hd'
      · refine P3Done_mono emps pts pm ms dm requests existing d' _ _
          ⟨l₂, hl₂, ?_⟩ hcnt h5
        intro r hr heq
        obtain ⟨d'', hd'', hrd⟩ := hl₂d r hr
        exact hdne d'' hd'' (heq ▸ hrd)
      · exact hdone d' hd'

/-! ## The whole-run summary -/

theorem auto_assign_eq_finalState (hol : Date → Option String)
    (staff : List Staff) (year month : Nat) (requests : List RequestRow)
    (existing : List ShiftRow) :
    auto_assign_shifts_for_month hol staff year month requests existing =
      (engineFinalState hol staff year month requests existing).new_shift_rows := rfl

theorem EngInv_initial (emps pts : List String) (ms : String → Int)
    (dm : String → List Nat) (init : String → Nat)
    (requests : List RequestRow) (existing : List ShiftRow) (dates : List Date) :
    EngInv emps pts ms dm init requests existing dates ⟨init, []⟩ := by
  refine ⟨?_, ?_, ?_, ?_, ?_⟩
  · intro sid; simp [countRowsFor]
  · intro sid; exact le_max_left _ _
  · intro r hr; exact absurd hr (List.not_mem_nil r)
  · exact List.Pairwise.nil
  · intro r hr; exact absurd hr (List.not_mem_nil r)

theorem premium_dates_subset (hol : Date → Option String) (dates : List Date) :
    ∀ d ∈ premium_dates hol dates, d ∈ dates := by
  intro d hd
  unfold premium_dates at hd
  rcases List.mem_append.mp hd with h | h
  · rcases List.mem_append.mp h with h | h
    · rcases List.mem_append.mp h with h | h <;> exact (List.mem_filter.mp h).1
    · exact (List.mem_filter.mp h).1
  · exact (List.mem_filter.mp h).1

theorem engineFinalState_spec (hol : Date → Option String) (staff : List Staff)
    (year month : Nat) (requests : List RequestRow) (existing : List ShiftRow) :
    EngInv (employeeIds staff) (parttimerIds staff) (max_shifts_per_person staff)
      (employee_dayoff_map staff) (initialCount staff existing) requests existing
      (date_range_for_month year month)
      (engineFinalState hol staff year month requests existing) ∧
    (∀ d ∈ date_range_for_month year month,
      EmpDone (employeeIds staff) (max_shifts_per_person staff)
        (employee_dayoff_map staff) requests existing PHASE1_TARGET d
        (engineFinalState hol staff year month requests existing)) ∧
    (∀ d ∈ premium_dates hol (date_range_for_month year month),
      EmpDone (employeeIds staff) (max_shifts_per_person staff)
        (employee_dayoff_map staff) requests existing PHASE2_TARGET d
        (engineFinalState hol staff year month requests existing)) ∧
    (∀ d ∈ date_range_for_month year month,
      P3Done (employeeIds staff) (parttimerIds staff) (position_map staff)
        (max_shifts_per_person staff) (employee_dayoff_map staff) requests
        existing d (engineFinalState hol staff year month requests existing)) := by
  have hInv0 := EngInv_initial (employeeIds staff) (parttimerIds staff)
    (max_shifts_per_person staff) (employee_dayoff_map staff)
    (initialCount staff existing) requests existing (date_range_for_month year month)
  -- Phase 1
  obtain ⟨⟨l1, hl1⟩, hcnt1, hinv1, hdone1⟩ :=
    empPhaseFold_spec (employeeIds staff) (parttimerIds staff)
      (max_shifts_per_person staff) (employee_dayoff_map staff)
      (initialCount staff existing) requests existing
      (date_range_for_month year month) PHASE1_TARGET
      (date_range_for_month year month) (fun _ h => h)
      ⟨initialCount staff existing, []⟩ hInv0
  -- Phase 2
  obtain ⟨⟨l2, hl2⟩, hcnt2, hinv2, hdone2⟩ :=
    empPhaseFold_spec (employeeIds staff) (parttimerIds staff)
      (max_shifts_per_person staff) (employee_dayoff_map staff)
      (initialCount staff existing) requests existing
      (date_range_for_month year month) PHASE2_TARGET
      (premium_dates hol (date_range_for_month year month))
      (premium_dates_subset hol _)
      (phase1Run (employeeIds staff) (max_shifts_per_person staff)
        (employee_dayoff_map staff) requests existing
        (date_range_for_month year month) ⟨initialCount staff existing, []⟩)
      hinv1
  -- Phase 3
  obtain ⟨⟨l3, hl3, hl3d⟩, hcnt3, hinv3, hdone3⟩ :=
    phase3Fold_spec (employeeIds staff) (parttimerIds staff) (position_map staff)
      (max_shifts_per_person staff) (employee_dayoff_map staff)
      (initialCount staff existing) requests existing year month
      (existing ++ (phase2Run hol (employeeIds staff) (max_shifts_per_person staff)
        (employee_dayoff_map staff) requests existing
        (date_range_for_month year month)
        (phase1Run (employeeIds staff) (max_shifts_per_person staff)
          (employee_dayoff_map staff) requests existing
          (date_range_for_month year month)
          ⟨initialCount staff existing, []⟩)).new_shift_rows)
      (date_range_for_month year month) (date_range_nodup year month)
      (fun _ h => h)
      (phase2Run hol (employeeIds staff) (max_shifts_per_person staff)
        (employee_dayoff_map staff) requests existing
        (date_range_for_month year month)
        (phase1Run (employeeIds staff) (max_shifts_per_person staff)
          (employee_dayoff_map staff) requests existing
          (date_range_for_month year month)
          ⟨initialCount staff existing, []⟩))
      hinv2 (fun d _ => todaysIds_append _ _ _)
  have hfinal : engineFinalState hol staff year month requests existing =
      (date_range_for_month year month).foldl
        (fun st d => phase3Day (employeeIds staff) (parttimerIds staff)
          (position_map staff) (max_shifts_per_person staff)
          (employee_dayoff_map staff) requests
          (existing ++ (phase2Run hol (employeeIds staff)
            (max_shifts_per_person staff) (employee_dayoff_map staff) requests
            existing (date_range_for_month year month)
            (phase1Run (employeeIds staff) (max_shifts_per_person staff)
              (employee_dayoff_map staff) requests existing
              (date_range_for_month year month)
              ⟨initialCount staff existing, []⟩)).new_shift_rows) d st)
        (phase2Run hol (employeeIds staff) (max_shifts_per_person staff)
          (employee_dayoff_map staff) requests existing
          (date_range_for_month year month)
          (phase1Run (employeeIds staff) (max_shifts_per_person staff)
            (employee_dayoff_map staff) requests existing
            (date_range_for_month year month)
            ⟨initialCount staff existing, []⟩)) := rfl
  rw [hfinal]
  refine ⟨hinv3, ?_, ?_, hdone3⟩
  · intro d hd
    have hp2 : phase2Run hol (employeeIds staff) (max_shifts_per_person staff)
        (employee_dayoff_map staff) requests existing
        (date_range_for_month year month)
        (phase1Run (employeeIds staff) (max_shifts_per_person staff)
          (employee_dayoff_map staff) requests existing
          (date_range_for_month year month)
          ⟨initialCount staff existing, []⟩) =
        (premium_dates hol (date_range_for_month year month)).foldl
          (fun st d => assign_employees_for_day (employeeIds staff)
            (max_shifts_per_person staff) (employee_dayoff_map staff) requests
            existing d PHASE2_TARGET st)
          (phase1Run (employeeIds staff) (max_shifts_per_person staff)
            (employee_dayoff_map staff) requests existing
            (date_range_for_month year month)
            ⟨initialCount staff existing, []⟩) := rfl
    refine EmpDone_mono _ _ _ _ _ _ _ _ _ ⟨l2 ++ l3, ?_⟩
      (fun s => le_trans (hcnt2 s) (hcnt3 s))
      (hdone1 d hd)
    rw [hl3, hp2, hl2, List.append_assoc]
  · intro d hd
    exact EmpDone_mono _ _ _ _ _ _ _ _ _ ⟨l3, hl3⟩ hcnt3 (hdone2 d hd)

/-! # Claim theorems -/

theorem finalState_EngInv (hol : Date → Option String) (staff : List Staff)
    (year month : Nat) (requests : List RequestRow) (existing : List ShiftRow) :
    EngInv (employeeIds staff) (parttimerIds staff) (max_shifts_per_person staff)
      (employee_dayoff_map staff) (initialCount staff existing) requests existing
      (date_range_for_month year month)
      (engineFinalState hol staff year month requests existing) :=
  (engineFinalState_spec hol staff year month requests existing).1

theorem mem_proposal_RowOk (hol : Date → Option String) (staff : List Staff)
    (year month : Nat) (requests : List RequestRow) (existing : List ShiftRow)
    (r : ShiftRow)
    (hr : r ∈ auto_assign_shifts_for_month hol staff year month requests existing) :
    RowOk (employeeIds staff) (parttimerIds staff) (employee_dayoff_map staff)
      requests (date_range_for_month year month) r := by
  rw [auto_assign_eq_finalState] at hr
  exact (finalState_EngInv hol staff year month requests existing).2.2.1 r hr

/-- **C10**: every assignment proposed by `auto_assign_shifts_for_month` has
start time `"17:00"` (`DEFAULT_OPEN_TIME`), end time `"24:00"`
(`DEFAULT_CLOSE_TIME`) and source `"auto"`; in particular no requested time
window of an availability entry is ever used for the proposed times. -/
theorem C10_proposal_times_and_source (hol : Date → Option String)
    (staff : List Staff) (year month : Nat) (requests : List RequestRow)
    (existing : List ShiftRow) (r : ShiftRow)
    (hr : r ∈ auto_assign_shifts_for_month hol staff year month requests existing) :
    r.start_time = DEFAULT_OPEN_TIME ∧ r.end_time = DEFAULT_CLOSE_TIME ∧
    r.source = "auto" := by
  obtain ⟨h1, h2, h3, _⟩ :=
    mem_proposal_RowOk hol staff year month requests existing r hr
  exact ⟨h1, h2, h3⟩

/-- **C1**: the proposal of `auto_assign_shifts_for_month` carries pairwise
distinct `(date, staff_id)` pairs and shares no such pair with the confirmed
input rows. -/
theorem C1_no_double_booking (hol : Date → Option String) (staff : List Staff)
    (year month : Nat) (requests : List RequestRow) (existing : List ShiftRow) :
    (auto_assign_shifts_for_month hol staff year month requests existing).Pairwise
      (fun a b => ¬(a.date = b.date ∧ a.staff_id = b.staff_id)) ∧
    ∀ r ∈ auto_assign_shifts_for_month hol staff year month requests existing,
      ∀ e ∈ existing, ¬(r.date = e.date ∧ r.staff_id = e.staff_id) := by
  rw [auto_assign_eq_finalState]
  exact (finalState_EngInv hol staff year month requests existing).2.2.2

/-- **C3**: a worker with a Blocked (`NG`) request row for a date is never
proposed on that date, whatever other (Desired) rows exist. -/
theorem C3_blocked_never_assigned (hol : Date → Option String)
    (staff : List Staff) (year month : Nat) (requests : List RequestRow)
    (existing : List ShiftRow) (req : RequestRow) (hreq : req ∈ requests)
    (htype : req.request_type = "NG") (r : ShiftRow)
    (hr : r ∈ auto_assign_shifts_for_month hol staff year month requests existing) :
    ¬(r.date = req.date ∧ r.staff_id = req.staff_id) := by
  obtain ⟨_, _, _, _, hng, _⟩ :=
    mem_proposal_RowOk hol staff year month requests existing r hr
  rintro ⟨hdate, hstaff⟩
  have hmem : r.staff_id ∈ ng_set_for requests r.date := by
    unfold ng_set_for
    refine List.mem_map.mpr ⟨req, List.mem_filter.mpr ⟨hreq, ?_⟩, hstaff.symm⟩
    simp [htype, hdate.symm]
  have htrue : (ng_set_for requests r.date).contains r.staff_id = true := by
    simpa using hmem
  rw [hng] at htrue
  exact Bool.false_ne_true htrue

/-! ## Roster congruence: day-off cells of non-Core rows are never read -/

theorem forall2_filter {α : Type} {R : α → α → Prop} (p q : α → Bool)
    (hpq : ∀ a b, R a b → p a = q b) :
    ∀ {l l' : List α}, List.Forall₂ R l l' →
      List.Forall₂ R (l.filter p) (l'.filter q) := by
  intro l l' h
  induction h with
  | nil => simp
  | cons hab hrest ih =>
    rename_i a b as bs
    rw [List.filter_cons, List.filter_cons]
    by_cases hp : p a = true
    · rw [if_pos hp, if_pos (by rw [← hpq a b hab]; exact hp)]
      exact List.Forall₂.cons hab ih
    · rw [if_neg hp, if_neg (by rw [← hpq a b hab]; exact hp)]
      exact ih

theorem forall2_find? {α : Type} {R : α → α → Prop} (p q : α → Bool)
    (hpq : ∀ a b, R a b → p a = q b) :
    ∀ {l l' : List α}, List.Forall₂ R l l' →
      (l.find? p = none ∧ l'.find? q = none) ∨
      (∃ a b, R a b ∧ l.find? p = some a ∧ l'.find? q = some b) := by
  intro l l' h
  induction h with
  | nil => left; simp
  | cons hab hrest ih =>
    rename_i a b as bs
    rw [List.find?_cons, List.find?_cons]
    by_cases hp : p a = true
    · rw [hp, ← hpq a b hab, hp]
      exact Or.inr ⟨a, b, hab, rfl, rfl⟩
    · have hp' : p a = false := Bool.of_not_eq_true hp
      rw [hp', ← hpq a b hab, hp']
      exact ih

theorem forall2_map_eq {α β : Type} {R : α → α → Prop} (f : α → β)
    (hf : ∀ a b, R a b → f a = f b) :
    ∀ {l l' : List α}, List.Forall₂ R l l' → l.map f = l'.map f := by
  intro l l' h
  induction h with
  | nil => rfl
  | cons hab _ ih =>
    simp only [List.map_cons, ih]
    rw [hf _ _ hab]

theorem SameButDayoffs_employeeIds (staff staff' : List Staff)
    (h : List.Forall₂ SameButDayoffs staff staff') :
    employeeIds staff = employeeIds staff' := by
  unfold employeeIds
  exact forall2_map_eq _ (fun a b hab => hab.1)
    (forall2_filter _ _ (fun a b hab => by simp only [hab.2.1]) h)

theorem SameButDayoffs_parttimerIds (staff staff' : List Staff)
    (h : List.Forall₂ SameButDayoffs staff staff') :
    parttimerIds staff = parttimerIds staff' := by
  unfold parttimerIds
  exact forall2_map_eq _ (fun a b hab => hab.1)
    (forall2_filter _ _ (fun a b hab => by simp only [hab.2.1]) h)

theorem SameButDayoffs_staffIds (staff staff' : List Staff)
    (h : List.Forall₂ SameButDayoffs staff staff') :
    staffIds staff = staffIds staff' := by
  unfold staffIds
  exact forall2_map_eq _ (fun a b hab => hab.1) h

theorem SameButDayoffs_position_map (staff staff' : List Staff)
    (h : List.Forall₂ SameButDayoffs staff staff') :
    position_map staff = position_map staff' := by
  funext sid
  unfold position_map
  have hr := List.forall₂_reverse_iff.mpr h
  rcases forall2_find? (fun s => s.staff_id == sid) (fun s => s.staff_id == sid)
      (fun a b hab => by simp only [hab.1]) hr with ⟨h1, h2⟩ | ⟨a, b, hab, h1, h2⟩
  · rw [h1, h2]
  · rw [h1, h2]
    simp [hab.2.2.1]

theorem SameButDayoffs_max_shifts (staff staff' : List Staff)
    (h : List.Forall₂ SameButDayoffs staff staff') :
    max_shifts_per_person staff = max_shifts_per_person staff' := by
  funext sid
  unfold max_shifts_per_person
  have hr := List.forall₂_reverse_iff.mpr h
  rcases forall2_find? (fun s => s.staff_id == sid) (fun s => s.staff_id == sid)
      (fun a b hab => by simp only [hab.1]) hr with ⟨h1, h2⟩ | ⟨a, b, hab, h1, h2⟩
  · rw [h1, h2]
  · rw [h1, h2]
    simp [hab.2.2.2.1]

theorem SameButDayoffs_dayoff_map (staff staff' : List Staff)
    (h : List.Forall₂ SameButDayoffs staff staff') :
    employee_dayoff_map staff = employee_dayoff_map staff' := by
  funext sid
  unfold employee_dayoff_map
  have hf := forall2_filter (fun s => s.role == "社員") (fun s => s.role == "社員")
    (fun a b hab => by simp only [hab.2.1]) h
  have hr := List.forall₂_reverse_iff.mpr hf
  rcases forall2_find? (fun s => s.staff_id == sid) (fun s => s.staff_id == sid)
      (fun a b hab => by simp only [hab.1]) hr with ⟨h1, h2⟩ | ⟨a, b, hab, h1, h2⟩
  · rw [h1, h2]
  · rw [h1, h2]
    have ha : a ∈ (staff.filter (fun s => s.role == "社員")).reverse :=
      List.mem_of_find?_eq_some h1
    have harole : a.role = "社員" := by
      have := (List.mem_filter.mp (List.mem_reverse.mp ha)).2
      simpa using this
    obtain ⟨hd1, hd2⟩ := hab.2.2.2.2 harole
    show staffDayoffs a = staffDayoffs b
    unfold staffDayoffs
    rw [hd1, hd2]

theorem SameButDayoffs_initialCount (staff staff' : List Staff)
    (existing : List ShiftRow) (h : List.Forall₂ SameButDayoffs staff staff') :
    initialCount staff existing = initialCount staff' existing := by
  funext sid
  unfold initialCount
  rw [SameButDayoffs_staffIds staff staff' h]

theorem SameButDayoffs_engine (hol : Date → Option String)
    (staff staff' : List Staff) (year month : Nat)
    (requests : List RequestRow) (existing : List ShiftRow)
    (h : List.Forall₂ SameButDayoffs staff staff') :
    auto_assign_shifts_for_month hol staff year month requests existing =
    auto_assign_shifts_for_month hol staff' year month requests existing := by
  rw [auto_assign_eq_finalState, auto_assign_eq_finalState]
  unfold engineFinalState
  rw [SameButDayoffs_employeeIds staff staff' h,
      SameButDayoffs_parttimerIds staff staff' h,
      SameButDayoffs_position_map staff staff' h,
      SameButDayoffs_max_shifts staff staff' h,
      SameButDayoffs_dayoff_map staff staff' h,
      SameButDayoffs_initialCount staff staff' existing h]

/-- **C4**: a Core (`社員`) worker is never proposed on a date of the month
whose weekday index is one of their fixed days off; and the fixed-day-off
exclusion applies only to Core workers — the day-off cells of non-Core
(Flexible) rows never influence the proposal. -/
theorem C4_fixed_dayoff_core_only (hol : Date → Option String)
    (staff : List Staff) (year month : Nat) (requests : List RequestRow)
    (existing : List ShiftRow) :
    (∀ (w : String) (d : Date), w ∈ employeeIds staff →
      d ∈ date_range_for_month year month →
      (employee_dayoff_map staff w).contains d.weekday = true →
      ∀ r ∈ auto_assign_shifts_for_month hol staff year month requests existing,
        ¬(r.date = dateStr d ∧ r.staff_id = w)) ∧
    (∀ staff' : List Staff, List.Forall₂ SameButDayoffs staff staff' →
      auto_assign_shifts_for_month hol staff year month requests existing =
      auto_assign_shifts_for_month hol staff' year month requests existing) := by
  constructor
  · intro w d hw hd hoff r hr hcol
    obtain ⟨hdate, hstaff⟩ := hcol
    obtain ⟨_, _, _, _, _, d', hd', hrd', hoffimp⟩ :=
      mem_proposal_RowOk hol staff year month requests existing r hr
    have hdd' : d = d' :=
      dateStr_inj_in_month year month d d' hd hd' (by rw [← hdate, hrd'])
    subst hdd'
    have hcontains : (employeeIds staff).contains r.staff_id = true := by
      rw [hstaff]; simpa using hw
    have := hoffimp hcontains
    rw [hstaff] at this
    rw [this] at hoff
    exact Bool.false_ne_true hoff
  · intro staff' h
    exact SameButDayoffs_engine hol staff staff' year month requests existing h

/-- **C2** (amended): for a roster worker whose confirmed count in the input
set does not already exceed their monthly cap, the confirmed count plus the
proposed count stays within the cap (`desired_shifts_per_month`, with a
missing or non-numeric cap read as 0). -/
theorem C2_capacity_amended (hol : Date → Option String) (staff : List Staff)
    (year month : Nat) (requests : List RequestRow) (existing : List ShiftRow)
    (w : String) (hw : w ∈ staffIds staff)
    (hpre : (countRowsFor existing w : Int) ≤ max_shifts_per_person staff w) :
    (countRowsFor existing w : Int) +
      countRowsFor (auto_assign_shifts_for_month hol staff year month requests
        existing) w ≤ max_shifts_per_person staff w := by
  obtain ⟨hlink, hcap, _, _, _⟩ :=
    finalState_EngInv hol staff year month requests existing
  have hinit : initialCount staff existing w = countRowsFor existing w := by
    unfold initialCount
    rw [if_pos (by simpa using hw)]
  have h1 := hlink w
  have h2 := hcap w
  rw [auto_assign_eq_finalState]
  rw [h1, hinit] at h2
  have hmax : max ((countRowsFor existing w : Int)) (max_shifts_per_person staff w)
      = max_shifts_per_person staff w := max_eq_right hpre
  rw [hmax] at h2
  push_cast at h2 ⊢
  omega

/-! ## Witnesses and counterexamples -/

set_option maxRecDepth 100000

/-- Witness for `C10_proposal_times_and_source` at a concrete run. -/
theorem C10_witness :
    (⟨"2025-02-02", "E1", "17:00", "24:00", "auto"⟩ : ShiftRow) ∈
      auto_assign_shifts_for_month noHoliday exStaffA 2025 2 [] exExistingA ∧
    ((⟨"2025-02-02", "E1", "17:00", "24:00", "auto"⟩ : ShiftRow).start_time =
        DEFAULT_OPEN_TIME ∧
      (⟨"2025-02-02", "E1", "17:00", "24:00", "auto"⟩ : ShiftRow).end_time =
        DEFAULT_CLOSE_TIME ∧
      (⟨"2025-02-02", "E1", "17:00", "24:00", "auto"⟩ : ShiftRow).source = "auto") :=
  ⟨by decide,
   C10_proposal_times_and_source noHoliday exStaffA 2025 2 [] exExistingA _
     (by decide)⟩

/-- Witness for `C1_no_double_booking` at a concrete run: the proposed row
does not collide with the confirmed row. -/
theorem C1_witness :
    (⟨"2025-02-02", "E1", "17:00", "24:00", "auto"⟩ : ShiftRow) ∈
      auto_assign_shifts_for_month noHoliday exStaffA 2025 2 [] exExistingA ∧
    ¬((⟨"2025-02-02", "E1", "17:00", "24:00", "auto"⟩ : ShiftRow).date =
        (⟨"2025-02-01", "E1", "17:00", "24:00", "manual"⟩ : ShiftRow).date ∧
      (⟨"2025-02-02", "E1", "17:00", "24:00", "auto"⟩ : ShiftRow).staff_id =
        (⟨"2025-02-01", "E1", "17:00", "24:00", "manual"⟩ : ShiftRow).staff_id) :=
  ⟨by decide,
   (C1_no_double_booking noHoliday exStaffA 2025 2 [] exExistingA).2 _
     (by decide) _ (by decide)⟩

/-- Witness for `C3_blocked_never_assigned` at a concrete run. -/
theorem C3_witness :
    (⟨"2025-02-01", "E1", "NG", "", "", ""⟩ : RequestRow) ∈ exRequestsB ∧
    (⟨"2025-02-02", "E1", "17:00", "24:00", "auto"⟩ : ShiftRow) ∈
      auto_assign_shifts_for_month noHoliday exStaffA 2025 2 exRequestsB [] ∧
    ¬((⟨"2025-02-02", "E1", "17:00", "24:00", "auto"⟩ : ShiftRow).date =
        (⟨"2025-02-01", "E1", "NG", "", "", ""⟩ : RequestRow).date ∧
      (⟨"2025-02-02", "E1", "17:00", "24:00", "auto"⟩ : ShiftRow).staff_id =
        (⟨"2025-02-01", "E1", "NG", "", "", ""⟩ : RequestRow).staff_id) :=
  ⟨by decide, by decide,
   C3_blocked_never_assigned noHoliday exStaffA 2025 2 exRequestsB [] _
     (by decide) rfl _ (by decide)⟩

/-- Witness for `C4_fixed_dayoff_core_only` at a concrete run: `E1` has
Monday off, and the Monday 2025-02-03 is never proposed for `E1`. -/
theorem C4_witness :
    "E1" ∈ employeeIds exStaffD ∧
    (⟨2025, 2, 3⟩ : Date) ∈ date_range_for_month 2025 2 ∧
    (employee_dayoff_map exStaffD "E1").contains (⟨2025, 2, 3⟩ : Date).weekday = true ∧
    (⟨"2025-02-01", "E1", "17:00", "24:00", "auto"⟩ : ShiftRow) ∈
      auto_assign_shifts_for_month noHoliday exStaffD 2025 2 [] [] ∧
    ¬((⟨"2025-02-01", "E1", "17:00", "24:00", "auto"⟩ : ShiftRow).date =
        dateStr ⟨2025, 2, 3⟩ ∧
      (⟨"2025-02-01", "E1", "17:00", "24:00", "auto"⟩ : ShiftRow).staff_id = "E1") :=
  ⟨by decide, by decide, by decide, by decide,
   (C4_fixed_dayoff_core_only noHoliday exStaffD 2025 2 [] []).1 "E1"
     ⟨2025, 2, 3⟩ (by decide) (by decide) (by decide) _ (by decide)⟩

/-- Counterexample to C2 as stated: with a confirmed set that already
exceeds the cap (`E1` has cap 0 but one confirmed row), the confirmed count
plus the proposed count exceeds the cap even though the engine proposes
nothing. -/
theorem C2_counterexample :
    ¬((countRowsFor exExistingA "E1" : Int) +
        countRowsFor (auto_assign_shifts_for_month noHoliday exStaffCap 2025 2
          [] exExistingA) "E1" ≤ max_shifts_per_person exStaffCap "E1") := by
  decide

/-- Witness for `C2_capacity_amended` at a concrete run. -/
theorem C2_witness :
    "E1" ∈ staffIds exStaffA ∧
    ((countRowsFor exExistingA "E1" : Int) ≤ max_shifts_per_person exStaffA "E1") ∧
    ((countRowsFor exExistingA "E1" : Int) +
      countRowsFor (auto_assign_shifts_for_month noHoliday exStaffA 2025 2 []
        exExistingA) "E1" ≤ max_shifts_per_person exStaffA "E1") :=
  ⟨by decide, by decide,
   C2_capacity_amended noHoliday exStaffA 2025 2 [] exExistingA "E1"
     (by decide) (by decide)⟩

/-- Counterexample to C8 as stated: a worker who carries the chef capability
tag `料理長` but is not the hardcoded `CHEF_ID` receives rank 9, not the
tag-determined rank 0. -/
theorem C8_counterexample :
    kitchen_priority_rank (position_map c8staff) "S009" ≠
      claimedKitchenRankByTag (position_map c8staff "S009") := by
  decide

/-- **C8** (amended): the kitchen-priority rank is keyed to the hardcoded
worker identities for chef and manager and to the capability tag for the
middle ranks, in this precedence order: the worker with id `CHEF_ID`
(`S002`) ranks 0; otherwise tag `調理場担当` ranks 1; otherwise tag
`オールラウンド` ranks 2; otherwise id `MANAGER_ID` (`S001`) ranks 3;
everyone else ranks 9.  The tag consulted is the position of the last
roster row carrying the worker's id. -/
theorem C8_kitchen_rank_amended (staff : List Staff) (s : Staff)
    (hfind : staff.reverse.find? (fun t => t.staff_id == s.staff_id) = some s) :
    kitchen_priority_rank (position_map staff) s.staff_id =
      if s.staff_id = CHEF_ID then 0
      else if s.position = "調理場担当" then 1
      else if s.position = "オールラウンド" then 2
      else if s.staff_id = MANAGER_ID then 3
      else 9 := by
  have hpos : position_map staff s.staff_id = s.position := by
    unfold position_map
    rw [hfind]
    rfl
  unfold kitchen_priority_rank
  rw [hpos]
  by_cases h1 : s.staff_id = CHEF_ID <;>
    by_cases h2 : s.position = "調理場担当" <;>
    by_cases h3 : s.position = "オールラウンド" <;>
    by_cases h4 : s.staff_id = MANAGER_ID <;>
    simp [h1, h2, h3, h4]

/-- Witness for `C8_kitchen_rank_amended`: the non-chef worker `S009`
tagged `料理長` ranks 9. -/
theorem C8_witness :
    kitchen_priority_rank (position_map c8staff) "S009" = 9 :=
  (C8_kitchen_rank_amended c8staff
    ⟨"S009", "アルバイト", "料理長", none, none, some 10⟩ (by decide)).trans
    (by decide)

/-- Counterexample to C6 as stated: in the first Phase-1 selection of a
concrete run (two Core workers, one of whom already holds one confirmed
shift but has the larger remaining capacity), the candidate list is not
ordered by the claimed composite key (not-desired, employment class, count
ascending, id) — the engine orders by remaining capacity descending
instead. -/
theorem C6_counterexample :
    ¬ (make_employee_candidates (employeeIds c6staff)
        (max_shifts_per_person c6staff) (employee_dayoff_map c6staff)
        (initialCount c6staff c6existing) (Date.weekday ⟨2025, 2, 1⟩)
        (todaysIds c6existing (dateStr ⟨2025, 2, 1⟩)) [] []).Pairwise
      (fun a b => keyLE4N (claimedEmpCandKey a) (claimedEmpCandKey b) = true) := by
  decide

/-- **C6** (amended): in Phase 3 the eligible candidates are ordered
ascending by exactly the claimed composite key — `(not-desired-today,
kitchen-priority-rank, count, id)` in kitchen mode and `(not-desired-today,
employment class with Flexible before Core, count, id)` in hall and generic
modes — but the core-restricted generic selections of Phases 1 and 2 are
ordered by `(not-desired-today, remaining monthly capacity descending,
count ascending, id)`, not by employment class. -/
theorem C6_ordering_amended (emps pts : List String) (pm : String → String)
    (ms : String → Int) (dm : String → List Nat) (count : String → Nat)
    (wk : Nat) (A hope ng : List String) (mode : String) (off : Bool) :
    (make_employee_candidates emps ms dm count wk A hope ng).Pairwise
      (fun a b => keyLE4I (empCandKey a) (empCandKey b) = true) ∧
    ((mode == "kitchen") = true →
      (make_any_candidates emps pts pm ms dm count wk A hope ng mode off).Pairwise
        (fun a b => keyLE4N (anyCandKeyKitchen pm a)
          (anyCandKeyKitchen pm b) = true)) ∧
    ((mode == "kitchen") = false →
      (make_any_candidates emps pts pm ms dm count wk A hope ng mode off).Pairwise
        (fun a b => keyLE4N (anyCandKeyHall a) (anyCandKeyHall b) = true)) := by
  refine ⟨?_, ?_, ?_⟩
  · exact pairwise_stableSortBy empCandLE
      (fun a b => keyLE4I_total _ _)
      (fun a b c h1 h2 => keyLE4I_trans _ _ _ h1 h2) _
  · intro hmode
    have h := pairwise_stableSortBy (anyCandLE pm mode)
      (fun a b => by unfold anyCandLE; rw [hmode]; exact keyLE4N_total _ _)
      (fun a b c h1 h2 => by
        unfold anyCandLE at *
        rw [hmode] at *
        exact keyLE4N_trans _ _ _ h1 h2)
      ((emps ++ pts).filterMap (fun sid =>
        if anyEligible emps ms dm count wk A ng sid
            && modeKeeps pm mode off sid then
          some ⟨sid, emps.contains sid, hope.contains sid, count sid⟩
        else none))
    refine List.Pairwise.imp ?_ h
    intro a b hab
    unfold anyCandLE at hab
    rw [hmode] at hab
    exact hab
  · intro hmode
    have h := pairwise_stableSortBy (anyCandLE pm mode)
      (fun a b => by unfold anyCandLE; rw [hmode]; exact keyLE4N_total _ _)
      (fun a b c h1 h2 => by
        unfold anyCandLE at *
        rw [hmode] at *
        exact keyLE4N_trans _ _ _ h1 h2)
      ((emps ++ pts).filterMap (fun sid =>
        if anyEligible emps ms dm count wk A ng sid
            && modeKeeps pm mode off sid then
          some ⟨sid, emps.contains sid, hope.contains sid, count sid⟩
        else none))
    refine List.Pairwise.imp ?_ h
    intro a b hab
    unfold anyCandLE at hab
    rw [hmode] at hab
    exact hab

/-- Witness for `C6_ordering_amended` at a concrete kitchen-mode call. -/
theorem C6_witness :
    (make_any_candidates (employeeIds c6staff) (parttimerIds c6staff)
      (position_map c6staff) (max_shifts_per_person c6staff)
      (employee_dayoff_map c6staff) (initialCount c6staff c6existing)
      5 [] [] [] "kitchen" false).Pairwise
        (fun a b => keyLE4N (anyCandKeyKitchen (position_map c6staff) a)
          (anyCandKeyKitchen (position_map c6staff) b) = true) :=
  (C6_ordering_amended (employeeIds c6staff) (parttimerIds c6staff)
    (position_map c6staff) (max_shifts_per_person c6staff)
    (employee_dayoff_map c6staff) (initialCount c6staff c6existing)
    5 [] [] [] "kitchen" false).2.1 rfl

/-- **C7**: the staffing targets — total headcount 6 on Friday/Saturday/
Sunday (weekday index ≥ 4) and 5 otherwise; core target 2 in Phase 1,
raised to 3 in Phase 2 exactly on Fridays, Saturdays, Sundays and
Monday–Thursday public holidays; and within Phase 3 a kitchen minimum of 2
and a hall minimum of 3 driving the mode choice. -/
theorem C7_staffing_targets :
    (∀ d : Date, required_staff_for d = if 4 ≤ d.weekday then 6 else 5) ∧
    PHASE1_TARGET = 2 ∧ PHASE2_TARGET = 3 ∧
    (∀ (hol : Date → Option String) (dates : List Date) (d : Date),
      d ∈ premium_dates hol dates ↔
        d ∈ dates ∧ (d.weekday = 4 ∨ d.weekday = 5 ∨ d.weekday = 6 ∨
          ((match hol d with
            | some s => !(s == "")
            | none => false) = true ∧ d.weekday ≤ 3))) ∧
    (∀ kc hc : Nat,
      (phase3_mode kc hc = "kitchen" ↔ kc < 2) ∧
      (phase3_mode kc hc = "hall" ↔ 2 ≤ kc ∧ hc < 3) ∧
      (phase3_mode kc hc = "any" ↔ 2 ≤ kc ∧ 3 ≤ hc)) := by
  refine ⟨?_, rfl, rfl, ?_, ?_⟩
  · intro d
    by_cases h : 4 ≤ d.weekday <;>
      simp [required_staff_for, is_weekend, WEEKEND_REQUIRED_STAFF,
        WEEKDAY_REQUIRED_STAFF, h]
  · intro hol dates d
    unfold premium_dates
    simp only [List.mem_append, List.mem_filter]
    constructor
    · rintro (((⟨hd, hw⟩ | ⟨hd, hw⟩) | ⟨hd, hw⟩) | ⟨hd, hw⟩)
      · exact ⟨hd, Or.inl (by simpa using hw)⟩
      · exact ⟨hd, Or.inr (Or.inl (by simpa using hw))⟩
      · exact ⟨hd, Or.inr (Or.inr (Or.inl (by simpa using hw)))⟩
      · rcases Bool.and_eq_true_iff.mp hw with ⟨h1, h2⟩
        exact ⟨hd, Or.inr (Or.inr (Or.inr ⟨h1, by simpa using h2⟩))⟩
    · rintro ⟨hd, hw | hw | hw | ⟨h1, h2⟩⟩
      · exact Or.inl (Or.inl (Or.inl ⟨hd, by simpa using hw⟩))
      · exact Or.inl (Or.inl (Or.inr ⟨hd, by simpa using hw⟩))
      · exact Or.inl (Or.inr ⟨hd, by simpa using hw⟩)
      · exact Or.inr ⟨hd, Bool.and_eq_true_iff.mpr ⟨h1, by simpa using h2⟩⟩
  · intro kc hc
    refine ⟨phase3_mode_kitchen_iff kc hc, ?_, ?_⟩
    · unfold phase3_mode
      by_cases h1 : 0 < 2 - kc
      · rw [if_pos h1]
        exact ⟨fun h => absurd h (by decide), fun ⟨h, _⟩ => by omega⟩
      · rw [if_neg h1]
        by_cases h2 : 0 < 3 - hc
        · rw [if_pos h2]
          exact ⟨fun _ => by omega, fun _ => rfl⟩
        · rw [if_neg h2]
          exact ⟨fun h => absurd h (by decide), fun ⟨_, h⟩ => by omega⟩
    · unfold phase3_mode
      by_cases h1 : 0 < 2 - kc
      · rw [if_pos h1]
        exact ⟨fun h => absurd h (by decide), fun ⟨h, _⟩ => by omega⟩
      · rw [if_neg h1]
        by_cases h2 : 0 < 3 - hc
        · rw [if_pos h2]
          exact ⟨fun h => absurd h (by decide), fun ⟨_, h⟩ => by omega⟩
        · rw [if_neg h2]
          exact ⟨fun _ => by omega, fun _ => rfl⟩

/-- **C9**: `auto_assign_shifts_for_month` references the global name
`get_jp_holiday_name` while building Phase 2's holiday list — the lookup is
applied to every date of the month, and every month has at least one date —
but no binding of that name exists at module scope of `app.py` or among the
Python builtins, so a run can only complete if the environment supplies the
function externally (the specification's public-holiday lookup input). -/
theorem C9_get_jp_holiday_name_unbound :
    name_resolves "get_jp_holiday_name" = false ∧
    "get_jp_holiday_name" ∈ auto_assign_global_refs ∧
    ∀ year month : Nat, 1 ≤ month → month ≤ 12 →
      phase2_holiday_scan_dates year month ≠ [] := by
  refine ⟨by decide, by decide, ?_⟩
  intro year month h1 h2 hnil
  have hlen : (phase2_holiday_scan_dates year month).length = 0 := by
    rw [hnil]; rfl
  have : 0 < monthLength year month := monthLength_pos year month h1 h2
  unfold phase2_holiday_scan_dates date_range_for_month at hlen
  rw [List.length_map, List.length_range] at hlen
  omega

/-- Witness for `C9_get_jp_holiday_name_unbound` at February 2025. -/
theorem C9_witness :
    name_resolves "get_jp_holiday_name" = false ∧
    phase2_holiday_scan_dates 2025 2 ≠ [] :=
  ⟨(C9_get_jp_holiday_name_unbound).1,
   (C9_get_jp_holiday_name_unbound).2.2 2025 2 (by decide) (by decide)⟩

/-! ## Idempotence: a second run over `confirmed ∪ proposal` adds nothing -/

theorem foldl_fixed {α β : Type} (f : β → α → β) (b : β) :
    ∀ l : List α, (∀ a ∈ l, f b a = b) → l.foldl f b = b := by
  intro l
  induction l with
  | nil => intro _; rfl
  | cons a as ih =>
    intro h
    rw [List.foldl_cons, h a (List.mem_cons_self _ _)]
    exact ih (fun x hx => h x (List.mem_cons_of_mem _ hx))

theorem todaysIds_nil (day : String) : todaysIds [] day = [] := rfl

theorem assign_day_identity (emps : List String) (ms : String → Int)
    (dm : String → List Nat) (requests : List RequestRow)
    (existing existing' : List ShiftRow) (d : Date) (target : Nat)
    (stF : EngState)
    (hA : todaysIds existing' (dateStr d) =
      todaysIds existing (dateStr d) ++ todaysIds stF.new_shift_rows (dateStr d))
    (hdone : EmpDone emps ms dm requests existing target d stF) :
    assign_employees_for_day emps ms dm requests existing' d target
      ⟨stF.count, []⟩ = ⟨stF.count, []⟩ := by
  unfold assign_employees_for_day
  have hA2 : todaysIds existing' (dateStr d) ++
      todaysIds (EngState.new_shift_rows ⟨stF.count, []⟩) (dateStr d) =
      todaysIds existing (dateStr d) ++ todaysIds stF.new_shift_rows (dateStr d) := by
    rw [show (EngState.new_shift_rows ⟨stF.count, []⟩) = [] from rfl,
      todaysIds_nil, List.append_nil, hA]
  rcases hdone with hdone | hdone
  · rw [if_pos]
    simp only [hA2]
    simp only [beq_iff_eq]
    omega
  · by_cases hneed : (target - empCountOf emps
        (todaysIds existing' (dateStr d) ++
          todaysIds (EngState.new_shift_rows ⟨stF.count, []⟩) (dateStr d))) = 0
    · rw [if_pos (by simpa using hneed)]
    · rw [if_neg (by simpa using hneed)]
      obtain ⟨k, hk⟩ := Nat.exists_eq_succ_of_ne_zero hneed
      rw [hk, assignEmpLoop]
      rw [show (EngState.count ⟨stF.count, []⟩) = stF.count from rfl, hA2, hdone]

theorem phase3_day_identity (emps pts : List String) (pm : String → String)
    (ms : String → Int) (dm : String → List Nat) (requests : List RequestRow)
    (existing existing' : List ShiftRow) (d : Date) (stF : EngState)
    (hA : todaysIds existing' (dateStr d) =
      todaysIds existing (dateStr d) ++ todaysIds stF.new_shift_rows (dateStr d))
    (hdone : P3Done emps pts pm ms dm requests existing d stF) :
    phase3Day emps pts pm ms dm requests (existing' ++ []) d
      ⟨stF.count, []⟩ = ⟨stF.count, []⟩ := by
  unfold phase3Day
  have hA2 : todaysIds (existing' ++ []) (dateStr d) =
      todaysIds existing (dateStr d) ++ todaysIds stF.new_shift_rows (dateStr d) := by
    rw [List.append_nil, hA]
  rcases hdone with hdone | hdone
  · rw [if_pos]
    simp only [hA2]
    simp only [beq_iff_eq]
    omega
  · by_cases hrem : (required_staff_for d -
        (todaysIds (existing' ++ []) (dateStr d)).length) = 0
    · rw [if_pos (by simpa using hrem)]
    · rw [if_neg (by simpa using hrem)]
      obtain ⟨k, hk⟩ := Nat.exists_eq_succ_of_ne_zero hrem
      rw [hk, phase3Loop]
      rw [show (EngState.count ⟨stF.count, []⟩) = stF.count from rfl, hA2, hdone]

theorem employeeIds_subset_staffIds (staff : List Staff) :
    ∀ x ∈ employeeIds staff, x ∈ staffIds staff := by
  intro x hx
  unfold employeeIds at hx
  unfold staffIds
  rcases List.mem_map.mp hx with ⟨s, hs, rfl⟩
  exact List.mem_map.mpr ⟨s, List.mem_filter.mp hs |>.1, rfl⟩

theorem parttimerIds_subset_staffIds (staff : List Staff) :
    ∀ x ∈ parttimerIds staff, x ∈ staffIds staff := by
  intro x hx
  unfold parttimerIds at hx
  unfold staffIds
  rcases List.mem_map.mp hx with ⟨s, hs, rfl⟩
  exact List.mem_map.mpr ⟨s, List.mem_filter.mp hs |>.1, rfl⟩

theorem proposal_count_nonroster (hol : Date → Option String)
    (staff : List Staff) (year month : Nat) (requests : List RequestRow)
    (existing : List ShiftRow) (sid : String)
    (h : ¬ sid ∈ staffIds staff) :
    countRowsFor (engineFinalState hol staff year month requests
      existing).new_shift_rows sid = 0 := by
  unfold countRowsFor
  rw [List.filter_eq_nil.mpr, List.length_nil]
  intro r hr
  obtain ⟨_, _, _, hstaff, _⟩ :=
    (finalState_EngInv hol staff year month requests existing).2.2.1 r hr
  simp only [beq_iff_eq]
  intro heq
  apply h
  rw [← heq]
  have hmem : r.staff_id ∈ employeeIds staff ++ parttimerIds staff := by
    simpa using hstaff
  rcases List.mem_append.mp hmem with hm | hm
  · exact employeeIds_subset_staffIds staff _ hm
  · exact parttimerIds_subset_staffIds staff _ hm

theorem initialCount_second (hol : Date → Option String) (staff : List Staff)
    (year month : Nat) (requests : List RequestRow) (existing : List ShiftRow) :
    initialCount staff (existing ++ (engineFinalState hol staff year month
      requests existing).new_shift_rows) =
    (engineFinalState hol staff year month requests existing).count := by
  funext sid
  have hlink := (finalState_EngInv hol staff year month requests existing).1 sid
  unfold initialCount at *
  by_cases h : sid ∈ staffIds staff
  · rw [if_pos (by simpa using h)] at *
    rw [hlink, countRowsFor_append]
  · rw [if_neg (by simpa using h)] at *
    rw [hlink, proposal_count_nonroster hol staff year month requests existing
      sid h]

theorem engineFinalState_unfold (hol : Date → Option String)
    (staff : List Staff) (year month : Nat) (requests : List RequestRow)
    (existing : List ShiftRow) :
    engineFinalState hol staff year month requests existing =
    phase3Run (employeeIds staff) (parttimerIds staff) (position_map staff)
      (max_shifts_per_person staff) (employee_dayoff_map staff) requests existing
      (date_range_for_month year month)
      (phase2Run hol (employeeIds staff) (max_shifts_per_person staff)
        (employee_dayoff_map staff) requests existing
        (date_range_for_month year month)
        (phase1Run (employeeIds staff) (max_shifts_per_person staff)
          (employee_dayoff_map staff) requests existing
          (date_range_for_month year month)
          ⟨initialCount staff existing, []⟩)) := rfl

/-- **C5**: running `auto_assign_shifts_for_month` a second time with the
confirmed input replaced by the union (concatenation) of the original
confirmed set and the first run's proposal, with roster, requests, holiday
lookup and target month unchanged, returns an empty proposal. -/
theorem C5_second_run_empty (hol : Date → Option String) (staff : List Staff)
    (year month : Nat) (requests : List RequestRow) (existing : List ShiftRow) :
    auto_assign_shifts_for_month hol staff year month requests
      (existing ++
        auto_assign_shifts_for_month hol staff year month requests existing) = [] := by
  obtain ⟨hinv, hdone1, hdone2, hdone3⟩ :=
    engineFinalState_spec hol staff year month requests existing
  rw [auto_assign_eq_finalState hol staff year month requests existing]
  rw [auto_assign_eq_finalState hol staff year month requests
    (existing ++ (engineFinalState hol staff year month requests
      existing).new_shift_rows)]
  have hA : ∀ d : Date,
      todaysIds (existing ++ (engineFinalState hol staff year month requests
        existing).new_shift_rows) (dateStr d) =
      todaysIds existing (dateStr d) ++
      todaysIds (engineFinalState hol staff year month requests
        existing).new_shift_rows (dateStr d) :=
    fun d => todaysIds_append _ _ _
  rw [engineFinalState_unfold hol staff year month requests
    (existing ++ (engineFinalState hol staff year month requests
      existing).new_shift_rows)]
  rw [initialCount_second hol staff year month requests existing]
  -- Phase 1 of the second run is the identity
  rw [show phase1Run (employeeIds staff) (max_shifts_per_person staff)
      (employee_dayoff_map staff) requests
      (existing ++ (engineFinalState hol staff year month requests
        existing).new_shift_rows)
      (date_range_for_month year month)
      ⟨(engineFinalState hol staff year month requests existing).count, []⟩ =
      ⟨(engineFinalState hol staff year month requests existing).count, []⟩ by
    unfold phase1Run
    exact foldl_fixed _ _ _ (fun d hd =>
      assign_day_identity (employeeIds staff) (max_shifts_per_person staff)
        (employee_dayoff_map staff) requests existing _ d PHASE1_TARGET
        (engineFinalState hol staff year month requests existing)
        (hA d) (hdone1 d hd))]
  -- Phase 2 of the second run is the identity
  rw [show phase2Run hol (employeeIds staff) (max_shifts_per_person staff)
      (employee_dayoff_map staff) requests
      (existing ++ (engineFinalState hol staff year month requests
        existing).new_shift_rows)
      (date_range_for_month year month)
      ⟨(engineFinalState hol staff year month requests existing).count, []⟩ =
      ⟨(engineFinalState hol staff year month requests existing).count, []⟩ by
    unfold phase2Run
    exact foldl_fixed _ _ _ (fun d hd =>
      assign_day_identity (employeeIds staff) (max_shifts_per_person staff)
        (employee_dayoff_map staff) requests existing _ d PHASE2_TARGET
        (engineFinalState hol staff year month requests existing)
        (hA d) (hdone2 d hd))]
  -- Phase 3 of the second run is the identity
  rw [show phase3Run (employeeIds staff) (parttimerIds staff)
      (position_map staff) (max_shifts_per_person staff)
      (employee_dayoff_map staff) requests
      (existing ++ (engineFinalState hol staff year month requests
        existing).new_shift_rows)
      (date_range_for_month year month)
      ⟨(engineFinalState hol staff year month requests existing).count, []⟩ =
      ⟨(engineFinalState hol staff year month requests existing).count, []⟩ by
    unfold phase3Run
    exact foldl_fixed _ _ _ (fun d hd =>
      phase3_day_identity (employeeIds staff) (parttimerIds staff)
        (position_map staff) (max_shifts_per_person staff)
        (employee_dayoff_map staff) requests existing _ d
        (engineFinalState hol staff year month requests existing)
        (hA d) (hdone3 d hd))]
